import Mathlib

/-!
Verification of the go-pec repository's natural-language specification
against a shallow Lean embedding of its Go source.

Conventions of the embedding:
* Go strings are Lean `String`s; byte-level operations are modelled on
  `List Char`, which coincides with the Go byte operations on the ASCII
  data all PEC header values use.
* Go's `header.Get` / `header.AddressList` results are passed in as
  explicit values (`String`, `Option (List String)`); `none` models a
  parse error, `some []` an absent or empty field, exactly as the Go
  call sites distinguish them.
* Go maps are modelled as total functions with the Go zero-value default.
-/

namespace GoPec

/-! ### String helpers (Go `strings` package operations used by the code) -/

/-- ASCII lower-casing of one character; agrees with Go `strings.ToLower`
and the case-folding of `strings.EqualFold` on ASCII input. -/
def asciiLowerChar (c : Char) : Char :=
  if 65 ≤ c.toNat ∧ c.toNat ≤ 90 then Char.ofNat (c.toNat + 32) else c

/-- ASCII lower-casing of a string. -/
def asciiLower (s : String) : String :=
  String.mk (s.toList.map asciiLowerChar)

/-- Go `strings.EqualFold`, restricted to ASCII case folding. -/
def equalFold (a b : String) : Bool :=
  asciiLower a == asciiLower b

/-- Decides whether `p` occurs at the head of `l`. -/
def leadsWith : List Char → List Char → Bool
  | [], _ => true
  | _ :: _, [] => false
  | p :: ps, c :: cs => p == c && leadsWith ps cs

/-- Decides whether `pat` occurs contiguously somewhere in the list. -/
def hasSubList (pat : List Char) : List Char → Bool
  | [] => pat.isEmpty
  | c :: cs => leadsWith pat (c :: cs) || hasSubList pat cs

/-- Go `strings.Contains s pat`. -/
def goContains (s pat : String) : Bool :=
  hasSubList pat.toList s.toList

/-- White space as recognised by Go `strings.TrimSpace` (ASCII part). -/
def isSpaceChar (c : Char) : Bool :=
  c == ' ' || c == '\t' || c == '\n' || c == '\r' || c == '\x0b' || c == '\x0c'

/-- Go `strings.TrimSpace` on ASCII data. -/
def trimSpace (s : String) : String :=
  String.mk (((s.toList.dropWhile isSpaceChar).reverse.dropWhile isSpaceChar).reverse)

/-! ### Header views -/

/-- A parsed RFC 5322 header: ordered field/value pairs. -/
abbrev HeaderView := List (String × String)

/-- Case-insensitive header-name comparison (Go canonicalises MIME keys). -/
def keyEq (a b : String) : Bool :=
  asciiLower a == asciiLower b

/-- Go `header.Get name`: first value of the field, `""` if absent. -/
def hdrGet : HeaderView → String → String
  | [], _ => ""
  | (k, v) :: rest, name => if keyEq k name then v else hdrGet rest name

/-! ### PEC data model (from the Go source) -/

/-- The `PecType` tags of the Go source. -/
inductive PecType where
  | None
  | CertifiedEmail
  | AcceptanceReceipt
  | TakingChargeReceipt
  | DeliveryReceipt
  | DeliveryErrorReceipt
  | NonAcceptanceReceipt
  | AnomalyEnvelope
deriving DecidableEq, Repr

/-! ### C1: the classifier `extractPECHeaders` -/

/-- The header slice iterated by `extractPECHeaders` in the Go source. -/
def pecHeaders : List String :=
  ["X-Riferimento-Message-ID", "Return-Path", "Delivered-To", "Received",
   "X-Ricevuta", "Message-ID", "X-Trasporto"]

/-- One iteration of the `extractPECHeaders` loop body: given the current
`(pecType, messageID)` state and the header name, apply the Go branch logic. -/
def extractStep (h : HeaderView) (st : PecType × String) (name : String) :
    PecType × String :=
  let value := hdrGet h name
  if value ≠ "" then
    let t :=
      if name == "X-Ricevuta" then
        if goContains value "accettazione" then PecType.AcceptanceReceipt
        else if goContains value "avvenuta-consegna" then PecType.DeliveryReceipt
        else if goContains value "errore-consegna" then PecType.DeliveryErrorReceipt
        else st.1
      else if name == "X-Trasporto" then
        if goContains value "posta-certificata" then PecType.CertifiedEmail
        else st.1
      else st.1
    let mid := if name == "Message-ID" then value else st.2
    (t, mid)
  else st

/-- `extractPECHeaders` of the Go source: starts from `PecType.None` and the
zero-value message id, and folds the loop body over `pecHeaders`. -/
def extractPECHeaders (h : HeaderView) : PecType × String :=
  pecHeaders.foldl (extractStep h) (PecType.None, "")

/-- The classifier exactly as the specification words it (priority rules of
spec section 4.1: substring match, case-insensitive, after whitespace trim). -/
def specClassify (h : HeaderView) : PecType :=
  let xt := asciiLower (trimSpace (hdrGet h "X-Trasporto"))
  let xr := asciiLower (trimSpace (hdrGet h "X-Ricevuta"))
  if goContains xt "posta-certificata" then PecType.CertifiedEmail
  else if goContains xr "accettazione" then PecType.AcceptanceReceipt
  else if goContains xr "avvenuta-consegna" then PecType.DeliveryReceipt
  else if goContains xr "errore-consegna" then PecType.DeliveryErrorReceipt
  else if goContains xr "presa-in-carico" then PecType.TakingChargeReceipt
  else if goContains xr "non-accettazione" then PecType.NonAcceptanceReceipt
  else if goContains xt "errore" then PecType.AnomalyEnvelope
  else PecType.None

/-- What the code's classifier actually computes, written as a priority
cascade: `X-Trasporto` containing `posta-certificata` wins (the loop visits
it last and overwrites), otherwise the case-sensitive, untrimmed substring
checks on `X-Ricevuta` in the order accettazione / avvenuta-consegna /
errore-consegna, otherwise `PecType.None`. -/
def classifyActual (h : HeaderView) : PecType :=
  let xt := hdrGet h "X-Trasporto"
  let xr := hdrGet h "X-Ricevuta"
  if goContains xt "posta-certificata" then PecType.CertifiedEmail
  else if goContains xr "accettazione" then PecType.AcceptanceReceipt
  else if goContains xr "avvenuta-consegna" then PecType.DeliveryReceipt
  else if goContains xr "errore-consegna" then PecType.DeliveryErrorReceipt
  else PecType.None

/-- C1, counterexample: the claim says every header view is classified by the
spec section 4.1 priority rules, but on `X-Ricevuta: presa-in-carico` the code
yields `PecType.None` while the rules give `TakingChargeReceipt`. -/
theorem extractPECHeaders_ne_specClassify :
    ¬ ∀ h : HeaderView, (extractPECHeaders h).1 = specClassify h := by
  intro hall
  have := hall [("X-Ricevuta", "presa-in-carico")]
  revert this
  decide

/-- Empty string contains no non-empty pattern. -/
theorem goContains_empty (pat : String) (hp : pat ≠ "") :
    goContains "" pat = false := by
  unfold goContains hasSubList
  cases hpl : pat.toList with
  | nil =>
    exfalso
    apply hp
    have : pat = String.mk pat.toList := rfl
    rw [hpl] at this
    exact this
  | cons c cs => simp [List.isEmpty]

/-- Unfolding of the classifier loop into its result. -/
theorem extract_unfold (h : HeaderView) :
    extractPECHeaders h = (classifyActual h, hdrGet h "Message-ID") := by
  unfold extractPECHeaders pecHeaders classifyActual
  simp only [List.foldl, extractStep]
  by_cases hxr : hdrGet h "X-Ricevuta" = "" <;>
    by_cases hmid : hdrGet h "Message-ID" = "" <;>
      by_cases hxt : hdrGet h "X-Trasporto" = "" <;>
        simp [hxr, hmid, hxt, goContains_empty]

/-- The code's classifier can only produce five of the eight `PecType` tags. -/
theorem classifyActual_cases (h : HeaderView) :
    classifyActual h = PecType.None ∨ classifyActual h = PecType.CertifiedEmail ∨
    classifyActual h = PecType.AcceptanceReceipt ∨
    classifyActual h = PecType.DeliveryReceipt ∨
    classifyActual h = PecType.DeliveryErrorReceipt := by
  unfold classifyActual
  simp only []
  split_ifs <;> simp

/-- C1, amended: for every header view, the classifier assigns `PecType` by
the actual priority rules of the code: `CertifiedEmail` if `X-Trasporto`
contains `posta-certificata` (checked last, so it overrides); otherwise, by
case-sensitive untrimmed substring match on `X-Ricevuta`, `AcceptanceReceipt`
for `accettazione`, `DeliveryReceipt` for `avvenuta-consegna`,
`DeliveryErrorReceipt` for `errore-consegna`; otherwise `PecType.None`.
`TakingChargeReceipt`, `NonAcceptanceReceipt` and `AnomalyEnvelope` are never
produced. `Message-ID` is copied verbatim. -/
theorem extractPECHeaders_eq_classifyActual (h : HeaderView) :
    extractPECHeaders h = (classifyActual h, hdrGet h "Message-ID") ∧
    (extractPECHeaders h).1 ≠ PecType.TakingChargeReceipt ∧
    (extractPECHeaders h).1 ≠ PecType.NonAcceptanceReceipt ∧
    (extractPECHeaders h).1 ≠ PecType.AnomalyEnvelope := by
  refine ⟨extract_unfold h, ?_, ?_, ?_⟩ <;>
    · rw [extract_unfold h]
      rcases classifyActual_cases h with hc | hc | hc | hc | hc <;> simp [hc]

/-! ### C2: `ValidateEnvelopeAndHeaders` (punto-accesso.go) -/

/-- Outcomes of the four `header.AddressList` calls the validator performs:
`none` models a parse error, `some l` the parsed address list (an absent
field parses to `some []`). -/
structure AddrHeader where
  fromList : Option (List String)
  toList : Option (List String)
  ccList : Option (List String)
  bccList : Option (List String)
deriving DecidableEq, Repr

/-- The `ValidationError` reasons of the Go source, with the data the
`fmt.Sprintf` calls interpolate. -/
inductive VError where
  | invalidFrom
  | invalidTo
  | bccPresent
  | reverseMismatch (smtpFrom fromHeader : String)
  | rcptNotFound (rcpt : String)
deriving DecidableEq, Repr

/-- The recipient loop of step 7: report the first forward-path recipient
whose lower-cased address is not in the collected set. -/
def checkRecipients (valid : List String) : List String → Option VError
  | [] => none
  | r :: rs =>
    if valid.contains (asciiLower r) then checkRecipients valid rs
    else some (.rcptNotFound r)

/-- `ValidateEnvelopeAndHeaders` of punto-accesso.go: cross-checks the SMTP
envelope against the parsed RFC 5322 headers, returning `none` on success or
the first failing check's `ValidationError`. -/
def ValidateEnvelopeAndHeaders (smtpFrom : String) (smtpRecipients : List String)
    (h : AddrHeader) : Option VError :=
  match h.fromList with
  | none => some .invalidFrom
  | some fromAddrs =>
    match fromAddrs with
    | [fromHeader] =>
      match h.toList with
      | none => some .invalidTo
      | some toAddrs =>
        if toAddrs.length == 0 then some .invalidTo
        else
          let ccAddrs := match h.ccList with
            | some l => l
            | none => []
          let bccBad := match h.bccList with
            | some l => decide (0 < l.length)
            | none => false
          if bccBad then some .bccPresent
          else if ¬ equalFold smtpFrom fromHeader then
            some (.reverseMismatch smtpFrom fromHeader)
          else
            let valid := (toAddrs ++ ccAddrs).map asciiLower
            checkRecipients valid smtpRecipients
    | _ => some .invalidFrom

/-- Spec predicate: the headers contain exactly one `From` address. -/
def exactlyOneFrom (h : AddrHeader) : Prop :=
  ∃ f, h.fromList = some [f]

/-- Spec predicate: the headers contain at least one `To` address. -/
def someTo (h : AddrHeader) : Prop :=
  ∃ l, h.toList = some l ∧ l ≠ []

/-- Spec predicate: no `Bcc` addresses are present. -/
def noBcc (h : AddrHeader) : Prop :=
  ∀ l, h.bccList = some l → l = []

/-- The `Cc` addresses actually used by the validator (a `Cc` parse failure
degrades to the empty list). -/
def ccOf (h : AddrHeader) : List String :=
  h.ccList.getD []

/-- Spec predicate: `r` is a member of the union `To ∪ Cc`, ASCII
case-insensitively. -/
def inUnionToCc (h : AddrHeader) (r : String) : Prop :=
  ∃ a, a ∈ h.toList.getD [] ++ ccOf h ∧ equalFold a r = true

theorem checkRecipients_none_iff (valid : List String) (rs : List String) :
    checkRecipients valid rs = none ↔
      ∀ r ∈ rs, valid.contains (asciiLower r) = true := by
  induction rs with
  | nil => simp [checkRecipients]
  | cons r rs ih =>
    unfold checkRecipients
    by_cases hr : valid.contains (asciiLower r) = true
    · rw [if_pos hr, ih]
      simp only [List.forall_mem_cons]
      exact ⟨fun hrest => ⟨hr, hrest⟩, fun hall => hall.2⟩
    · rw [if_neg hr]
      simp only [List.forall_mem_cons]
      constructor
      · intro hcon
        exact Option.noConfusion hcon
      · intro hcon
        exact absurd hcon.1 hr

theorem contains_lower_iff (l : List String) (r : String) :
    ((l.map asciiLower).contains (asciiLower r) = true) ↔
      ∃ a, a ∈ l ∧ equalFold a r = true := by
  simp only [List.contains_iff_exists_mem_beq, List.mem_map, beq_iff_eq, equalFold]
  constructor
  · rintro ⟨b, ⟨a, ha, rfl⟩, hb⟩
    exact ⟨a, ha, hb.symm⟩
  · rintro ⟨a, ha, hf⟩
    exact ⟨asciiLower a, ⟨a, ha, rfl⟩, hf.symm⟩

theorem checkRecipients_first_bad (valid : List String)
    (pre : List String) (r : String) (post : List String)
    (hpre : ∀ x ∈ pre, valid.contains (asciiLower x) = true)
    (hr : valid.contains (asciiLower r) = false) :
    checkRecipients valid (pre ++ r :: post) = some (.rcptNotFound r) := by
  induction pre with
  | nil =>
    rw [List.nil_append]
    unfold checkRecipients
    rw [if_neg (by rw [hr]; exact Bool.false_ne_true)]
  | cons p ps ih =>
    have hp := hpre p (by simp)
    rw [List.cons_append]
    unfold checkRecipients
    rw [if_pos hp]
    exact ih fun x hx => hpre x (by simp [hx])

theorem validate_noFromParse (sf : String) (rcpts : List String)
    (tl cl bl : Option (List String)) :
    ValidateEnvelopeAndHeaders sf rcpts ⟨none, tl, cl, bl⟩ = some .invalidFrom := rfl

theorem validate_emptyFrom (sf : String) (rcpts : List String)
    (tl cl bl : Option (List String)) :
    ValidateEnvelopeAndHeaders sf rcpts ⟨some [], tl, cl, bl⟩ = some .invalidFrom := rfl

theorem validate_manyFrom (sf : String) (rcpts : List String)
    (a b : String) (l : List String) (tl cl bl : Option (List String)) :
    ValidateEnvelopeAndHeaders sf rcpts ⟨some (a :: b :: l), tl, cl, bl⟩ =
      some .invalidFrom := rfl

theorem validate_noToParse (sf : String) (rcpts : List String)
    (f : String) (cl bl : Option (List String)) :
    ValidateEnvelopeAndHeaders sf rcpts ⟨some [f], none, cl, bl⟩ = some .invalidTo := rfl

theorem validate_emptyTo (sf : String) (rcpts : List String)
    (f : String) (cl bl : Option (List String)) :
    ValidateEnvelopeAndHeaders sf rcpts ⟨some [f], some [], cl, bl⟩ =
      some .invalidTo := rfl

theorem validate_bccPresent (sf : String) (rcpts : List String)
    (f t : String) (ts : List String) (cl : Option (List String))
    (x : String) (xs : List String) :
    ValidateEnvelopeAndHeaders sf rcpts ⟨some [f], some (t :: ts), cl, some (x :: xs)⟩ =
      some .bccPresent := by
  unfold ValidateEnvelopeAndHeaders
  simp

/-- Reduction of the validator once the From/To/Bcc checks pass. -/
theorem validate_pastBcc (sf : String) (rcpts : List String)
    (f t : String) (ts : List String) (cl bl : Option (List String))
    (hb : ∀ l, bl = some l → l = []) :
    ValidateEnvelopeAndHeaders sf rcpts ⟨some [f], some (t :: ts), cl, bl⟩ =
      (if equalFold sf f = true then
        checkRecipients (((t :: ts) ++ cl.getD []).map asciiLower) rcpts
      else some (.reverseMismatch sf f)) := by
  have hbl : bl = none ∨ bl = some [] := by
    cases bl with
    | none => exact Or.inl rfl
    | some l => exact Or.inr (by rw [hb l rfl])
  cases hfold : equalFold sf f with
  | true =>
    rcases hbl with rfl | rfl <;> cases cl <;>
      · unfold ValidateEnvelopeAndHeaders
        simp [hfold]
  | false =>
    rcases hbl with rfl | rfl <;> cases cl <;>
      · unfold ValidateEnvelopeAndHeaders
        simp [hfold]

/-- C2: `ValidateEnvelopeAndHeaders` succeeds exactly when the headers have
exactly one `From` address, at least one `To` address, no `Bcc` addresses,
the SMTP reverse-path equals the `From` address ASCII case-insensitively,
and every forward-path recipient belongs to `To ∪ Cc` ASCII
case-insensitively; on failure it reports the first check, in that order,
that failed (for the recipient check, the first offending recipient), and
later checks are not evaluated. -/
theorem ValidateEnvelopeAndHeaders_spec (sf : String) (rcpts : List String)
    (h : AddrHeader) :
    (ValidateEnvelopeAndHeaders sf rcpts h = none ↔
      (exactlyOneFrom h ∧ someTo h ∧ noBcc h ∧
        (∀ f, h.fromList = some [f] → equalFold sf f = true) ∧
        (∀ r ∈ rcpts, inUnionToCc h r))) ∧
    (¬ exactlyOneFrom h →
      ValidateEnvelopeAndHeaders sf rcpts h = some .invalidFrom) ∧
    (exactlyOneFrom h → ¬ someTo h →
      ValidateEnvelopeAndHeaders sf rcpts h = some .invalidTo) ∧
    (exactlyOneFrom h → someTo h → ¬ noBcc h →
      ValidateEnvelopeAndHeaders sf rcpts h = some .bccPresent) ∧
    (∀ f, h.fromList = some [f] → someTo h → noBcc h →
      equalFold sf f = false →
      ValidateEnvelopeAndHeaders sf rcpts h = some (.reverseMismatch sf f)) ∧
    (∀ f, h.fromList = some [f] → someTo h → noBcc h →
      equalFold sf f = true →
      ∀ pre r post, rcpts = pre ++ r :: post →
        (∀ x ∈ pre, inUnionToCc h x) → ¬ inUnionToCc h r →
        ValidateEnvelopeAndHeaders sf rcpts h = some (.rcptNotFound r)) := by
  obtain ⟨fl, tl, cl, bl⟩ := h
  have hunion : ∀ (t : String) (ts : List String), tl = some (t :: ts) → ∀ r,
      ((((t :: ts) ++ cl.getD []).map asciiLower).contains (asciiLower r) = true ↔
        inUnionToCc ⟨fl, tl, cl, bl⟩ r) := by
    rintro t ts rfl r
    rw [contains_lower_iff]
    unfold inUnionToCc ccOf
    simp
  refine ⟨?_, ?_, ?_, ?_, ?_, ?_⟩
  · -- success iff all five checks pass
    constructor
    · intro hok
      match fl, tl with
      | none, tl => exact Option.noConfusion (validate_noFromParse sf rcpts tl cl bl ▸ hok)
      | some [], tl => exact Option.noConfusion (validate_emptyFrom sf rcpts tl cl bl ▸ hok)
      | some (a :: b :: l), tl =>
        exact Option.noConfusion (validate_manyFrom sf rcpts a b l tl cl bl ▸ hok)
      | some [f], none => exact Option.noConfusion (validate_noToParse sf rcpts f cl bl ▸ hok)
      | some [f], some [] => exact Option.noConfusion (validate_emptyTo sf rcpts f cl bl ▸ hok)
      | some [f], some (t :: ts) =>
        have hnb : noBcc ⟨some [f], some (t :: ts), cl, bl⟩ := by
          intro l hl
          subst hl
          cases l with
          | nil => rfl
          | cons x xs => exact Option.noConfusion (validate_bccPresent sf rcpts f t ts cl x xs ▸ hok)
        rw [validate_pastBcc sf rcpts f t ts cl bl hnb] at hok
        cases hfold : equalFold sf f with
        | false => rw [if_neg (by simp [hfold])] at hok; exact Option.noConfusion hok
        | true =>
          rw [if_pos hfold] at hok
          refine ⟨⟨f, rfl⟩, ⟨t :: ts, rfl, by simp⟩, hnb, ?_, ?_⟩
          · intro f' hf'
            cases hf'
            exact hfold
          · intro r hr
            rw [← hunion t ts rfl r]
            exact (checkRecipients_none_iff _ _).mp hok r hr
    · rintro ⟨⟨f, hf⟩, ⟨tos, hto, htos⟩, hnb, hrev, hrc⟩
      subst hf
      subst hto
      match tos, htos with
      | t :: ts, _ =>
        rw [validate_pastBcc sf rcpts f t ts cl bl hnb, if_pos (hrev f rfl)]
        rw [checkRecipients_none_iff]
        intro r hr
        rw [hunion t ts rfl r]
        exact hrc r hr
  · -- From check fails first
    intro hnf
    match fl with
    | none => rfl
    | some [] => rfl
    | some [f] => exact absurd ⟨f, rfl⟩ hnf
    | some (a :: b :: l) => rfl
  · -- To check fails second
    rintro ⟨f, hf⟩ hnt
    subst hf
    match tl with
    | none => rfl
    | some [] => rfl
    | some (t :: ts) => exact absurd ⟨t :: ts, rfl, by simp⟩ hnt
  · -- Bcc check fails third
    rintro ⟨f, hf⟩ ⟨tos, hto, htos⟩ hnb
    subst hf
    subst hto
    have : ∃ x xs, bl = some (x :: xs) := by
      by_contra hno
      push_neg at hno
      refine hnb fun l hl => ?_
      subst hl
      cases l with
      | nil => rfl
      | cons x xs => exact absurd rfl (hno x xs)
    obtain ⟨x, xs, rfl⟩ := this
    match tos, htos with
    | t :: ts, _ => exact validate_bccPresent sf rcpts f t ts cl x xs
  · -- reverse-path check fails fourth
    rintro f hf ⟨tos, hto, htos⟩ hnb hfold
    subst hf
    subst hto
    match tos, htos with
    | t :: ts, _ =>
      rw [validate_pastBcc sf rcpts f t ts cl bl hnb, if_neg (by simp [hfold])]
  · -- first offending recipient is reported
    rintro f hf ⟨tos, hto, htos⟩ hnb hfold pre r post hsplit hpre hr
    subst hf
    subst hto
    subst hsplit
    match tos, htos with
    | t :: ts, _ =>
      rw [validate_pastBcc _ _ f t ts cl bl hnb, if_pos hfold]
      apply checkRecipients_first_bad
      · intro x hx
        rw [hunion t ts rfl x]
        exact hpre x hx
      · rw [Bool.eq_false_iff]
        intro hcon
        rw [hunion t ts rfl r] at hcon
        exact hr hcon

/-- C2 witness: a concrete valid envelope passes, via the main theorem. -/
theorem ValidateEnvelopeAndHeaders_spec_witness :
    ValidateEnvelopeAndHeaders "alice@a.it" ["bob@b.it"]
      ⟨some ["alice@a.it"], some ["bob@b.it"], some [], some []⟩ = none :=
  (ValidateEnvelopeAndHeaders_spec "alice@a.it" ["bob@b.it"]
      ⟨some ["alice@a.it"], some ["bob@b.it"], some [], some []⟩).1.mpr
    ⟨⟨"alice@a.it", rfl⟩, ⟨["bob@b.it"], rfl, by simp⟩,
      fun l hl => by cases hl; rfl,
      fun f hf => by cases hf; rfl,
      fun r hr => by
        simp only [List.mem_singleton] at hr
        exact ⟨"bob@b.it", by simp [ccOf], by subst hr; rfl⟩⟩

/-! ### C3: `parsePec` and its type / `DatiCert.tipo` cross-check -/

/-- The `DatiCert` structure parsed from the certification XML; `parsePec`
reads only the `tipo` attribute, the structure's other fields (errore,
intestazione, dati) do not influence the cross-check. -/
structure DatiCert where
  tipo : String
deriving DecidableEq, Repr

/-- The `PECMail` structure of the Go source, filled from the header view. -/
structure PECMail where
  envelopeFrom : String
  envelopeTo : String
  envelopeSubject : String
  envelopeDate : String
  messageID : String
  pecType : PecType
deriving DecidableEq, Repr

/-- Header extraction performed at the start of `parsePec`. -/
def mkPECMail (h : HeaderView) : PECMail :=
  { envelopeFrom := hdrGet h "From"
    envelopeTo := hdrGet h "To"
    envelopeSubject := hdrGet h "Subject"
    envelopeDate := hdrGet h "Date"
    messageID := (extractPECHeaders h).2
    pecType := (extractPECHeaders h).1 }

/-- The error cases `parsePec` can report. -/
inductive PecParseError where
  | contentTypeError
  | notAPec
  | mixedPartFailed
  | typeMismatch
deriving DecidableEq, Repr

/-- One part delivered by the multipart reader before the stream ends: a
`multipart/mixed` part together with its `parseMixedPart` outcome (`none`
when that call returned nil), or a part of any other media type, which the
loop reads and skips. -/
inductive PecPart where
  | mixedPart (result : Option DatiCert)
  | otherPart
deriving DecidableEq, Repr

/-- How the multipart stream ends after the delivered parts: `io.EOF`, or a
non-EOF `NextPart` error, which part_000 suppresses (the commented TODO
above that return acknowledges the suppression). -/
inductive StreamEnd where
  | eof
  | readError
deriving DecidableEq, Repr

/-- The MIME-level shape of the body handed to `parsePec`: the
`mime.ParseMediaType` outcome of the top-level Content-Type (`none` models a
parse error), the parts the multipart reader delivers, and how the stream
ends. -/
structure PecBody where
  contentType : Option String
  parts : List PecPart
  ending : StreamEnd
deriving DecidableEq, Repr

/-- The zero-valued `PECMail` (`&PECMail{}`). -/
def emptyPECMail : PECMail :=
  ⟨"", "", "", "", "", PecType.None⟩

/-- The cross-check condition of `parsePec`, verbatim from the Go source. -/
def crossCheckFails (t : PecType) (d : DatiCert) : Bool :=
  (t == PecType.AcceptanceReceipt && d.tipo != "accettazione") ||
  (t == PecType.DeliveryReceipt && d.tipo != "avvenuta-consegna") ||
  (t == PecType.CertifiedEmail && d.tipo != "posta-certificata") ||
  (t == PecType.DeliveryErrorReceipt && d.tipo != "errore-consegna")

/-- The multipart loop of `parsePec`: each delivered `multipart/mixed` part
whose inner parse returned nil aborts with an error, a parsed one replaces
the current `DatiCert`, other parts are skipped; on EOF the cross-check
runs, while on a suppressed non-EOF read error the current pair is returned
with no error and no cross-check. -/
def parseLoop (pm : PECMail) (datiCert : DatiCert) :
    List PecPart → StreamEnd → Except PecParseError (PECMail × DatiCert)
  | [], StreamEnd.eof =>
    if crossCheckFails pm.pecType datiCert then
      Except.error PecParseError.typeMismatch
    else Except.ok (pm, datiCert)
  | [], StreamEnd.readError => Except.ok (pm, datiCert)
  | PecPart.mixedPart none :: _, _ =>
    Except.error PecParseError.mixedPartFailed
  | PecPart.mixedPart (some d) :: rest, e => parseLoop pm d rest e
  | PecPart.otherPart :: rest, e => parseLoop pm datiCert rest e

/-- `parsePec` of part_000: error on an unparseable Content-Type; a
parseable media type other than `multipart/signed` returns the zero-valued
structs with a nil error (the Go `return pecMail, datiCert, err` there
carries the nil `err` of the successful `ParseMediaType`); otherwise
classify from the headers (error on `PecType.None`) and run the multipart
loop from the zero-valued `DatiCert`. -/
def parsePec (h : HeaderView) (body : PecBody) :
    Except PecParseError (PECMail × DatiCert) :=
  match body.contentType with
  | none => Except.error PecParseError.contentTypeError
  | some mediaType =>
    if mediaType ≠ "multipart/signed" then Except.ok (emptyPECMail, ⟨""⟩)
    else
      let pm := mkPECMail h
      if pm.pecType = PecType.None then Except.error PecParseError.notAPec
      else parseLoop pm ⟨""⟩ body.parts body.ending

/-- The `DatiCert` the loop holds after the delivered parts: `none` when
some mixed part failed to parse, otherwise the last parsed one (or the
initial value when no mixed part occurred). -/
def scanParts (datiCert : DatiCert) : List PecPart → Option DatiCert
  | [] => some datiCert
  | PecPart.mixedPart none :: _ => none
  | PecPart.mixedPart (some d) :: rest => scanParts d rest
  | PecPart.otherPart :: rest => scanParts datiCert rest

/-- The canonical `DatiCert.tipo` string of each PEC type, as the claim and
spec section 4.3 list them. -/
def canonicalTipo : PecType → String
  | PecType.AcceptanceReceipt => "accettazione"
  | PecType.DeliveryReceipt => "avvenuta-consegna"
  | PecType.DeliveryErrorReceipt => "errore-consegna"
  | PecType.CertifiedEmail => "posta-certificata"
  | PecType.TakingChargeReceipt => "presa-in-carico"
  | PecType.NonAcceptanceReceipt => "non-accettazione"
  | _ => ""

/-- For the types the classifier can output, the code's cross-check fires
exactly when `tipo` differs from the canonical string. -/
theorem crossCheckFails_iff (h : HeaderView) (d : DatiCert)
    (ht : (extractPECHeaders h).1 ≠ PecType.None) :
    crossCheckFails (extractPECHeaders h).1 d = true ↔
      d.tipo ≠ canonicalTipo (extractPECHeaders h).1 := by
  rw [extract_unfold] at ht ⊢
  rcases classifyActual_cases h with hc | hc | hc | hc | hc <;>
    rw [hc] at ht ⊢
  · exact absurd rfl ht
  all_goals
    simp [crossCheckFails, canonicalTipo, bne_iff_ne]

theorem parseLoop_eq (pm : PECMail) (parts : List PecPart) :
    ∀ (dc : DatiCert) (ending : StreamEnd),
      parseLoop pm dc parts ending =
        match scanParts dc parts with
        | none => Except.error PecParseError.mixedPartFailed
        | some dFinal =>
          match ending with
          | StreamEnd.readError => Except.ok (pm, dFinal)
          | StreamEnd.eof =>
            if crossCheckFails pm.pecType dFinal then
              Except.error PecParseError.typeMismatch
            else Except.ok (pm, dFinal) := by
  induction parts with
  | nil =>
    intro dc ending
    cases ending <;> rfl
  | cons p rest ih =>
    intro dc ending
    cases p with
    | mixedPart r =>
      cases r with
      | none => cases ending <;> rfl
      | some d =>
        rw [show parseLoop pm dc (PecPart.mixedPart (some d) :: rest) ending
          = parseLoop pm d rest ending from rfl]
        rw [ih d ending]
        rfl
    | otherPart =>
      rw [show parseLoop pm dc (PecPart.otherPart :: rest) ending
        = parseLoop pm dc rest ending from rfl]
      rw [ih dc ending]
      rfl

/-- C3, counterexample: the claim says `parsePec` errors whenever the
parsed `DatiCert.tipo` differs from the canonical string of the classified
type, but part_000 suppresses a non-EOF multipart read error (lines
147 to 151) and returns the mismatched pair with a nil error, skipping the
cross-check: a message classified `AcceptanceReceipt` whose certification
XML parsed to `tipo avvenuta-consegna` and whose stream then fails parses
without error. -/
theorem parsePec_crossCheck_claim_false :
    ¬ (∀ (h : HeaderView) (ending : StreamEnd) (d : DatiCert),
        (extractPECHeaders h).1 ≠ PecType.None →
        d.tipo ≠ canonicalTipo (extractPECHeaders h).1 →
        ∀ pair, parsePec h ⟨some "multipart/signed",
          [PecPart.mixedPart (some d)], ending⟩ ≠ Except.ok pair) := by
  intro hall
  exact hall [("X-Ricevuta", "accettazione")] StreamEnd.readError
    ⟨"avvenuta-consegna"⟩ (by decide) (by decide)
    (mkPECMail [("X-Ricevuta", "accettazione")], ⟨"avvenuta-consegna"⟩)
    rfl

/-- C3, amended: when the content type parses as `multipart/signed`, the
headers classify to some PEC type, and the multipart stream reaches EOF,
the cross-check governs: `parsePec` errors exactly when the parsed `tipo`
differs from the canonical string of the classified type and returns the
`(PECMail, DatiCert)` pair otherwise; but a suppressed non-EOF multipart
read error returns the (possibly mismatched) pair with no error and no
cross-check, and a parseable content type other than `multipart/signed`
returns the zero-valued structs with no error. -/
theorem parsePec_crossCheck_actual (h : HeaderView) (parts : List PecPart)
    (ending : StreamEnd) (d : DatiCert)
    (hne : (extractPECHeaders h).1 ≠ PecType.None)
    (hscan : scanParts ⟨""⟩ parts = some d) :
    (ending = StreamEnd.eof →
      (d.tipo ≠ canonicalTipo (extractPECHeaders h).1 →
        parsePec h ⟨some "multipart/signed", parts, ending⟩ =
          Except.error PecParseError.typeMismatch) ∧
      (d.tipo = canonicalTipo (extractPECHeaders h).1 →
        parsePec h ⟨some "multipart/signed", parts, ending⟩ =
          Except.ok (mkPECMail h, d))) ∧
    (ending = StreamEnd.readError →
      parsePec h ⟨some "multipart/signed", parts, ending⟩ =
        Except.ok (mkPECMail h, d)) ∧
    (∀ mt, mt ≠ "multipart/signed" →
      parsePec h ⟨some mt, parts, ending⟩ =
        Except.ok (emptyPECMail, ⟨""⟩)) := by
  have hpm : (mkPECMail h).pecType = (extractPECHeaders h).1 := rfl
  have hbase : parsePec h ⟨some "multipart/signed", parts, ending⟩ =
      parseLoop (mkPECMail h) ⟨""⟩ parts ending := by
    unfold parsePec
    dsimp only
    rw [if_neg (by simp), if_neg (by rw [hpm]; exact hne)]
  refine ⟨?_, ?_, ?_⟩
  · intro hend
    subst hend
    constructor
    · intro hmis
      rw [hbase, parseLoop_eq, hscan]
      dsimp only
      rw [if_pos (by rw [hpm]; exact (crossCheckFails_iff h d hne).mpr hmis)]
    · intro heqc
      rw [hbase, parseLoop_eq, hscan]
      dsimp only
      rw [if_neg (by
        rw [hpm]
        intro hcon
        exact absurd heqc ((crossCheckFails_iff h d hne).mp hcon))]
  · intro hend
    subst hend
    rw [hbase, parseLoop_eq, hscan]
  · intro mt hmt
    unfold parsePec
    dsimp only
    rw [if_pos hmt]

/-- C3 witness: a matching acceptance receipt read to EOF parses cleanly,
via the main theorem. -/
theorem parsePec_crossCheck_actual_witness :
    parsePec [("X-Ricevuta", "accettazione")]
      ⟨some "multipart/signed",
       [PecPart.mixedPart (some ⟨"accettazione"⟩)], StreamEnd.eof⟩ =
      Except.ok (mkPECMail [("X-Ricevuta", "accettazione")],
        ⟨"accettazione"⟩) :=
  ((parsePec_crossCheck_actual [("X-Ricevuta", "accettazione")]
      [PecPart.mixedPart (some ⟨"accettazione"⟩)] StreamEnd.eof
      ⟨"accettazione"⟩ (by decide) (by decide)).1 rfl).2 (by decide)

/-! ### C4: `Signer.SignEmail` / `Signer.CreateSignedMimeMessage` -/

/-- CRLF as a byte pair. -/
def crlf : List Char := ['\r', '\n']

/-- The fixed multipart boundary of `CreateSignedMimeMessage`. -/
def smimeBoundary : List Char :=
  "----=_NextPart_000_0000_01234567.89ABCDEF".toList

/-- Go `strings.HasSuffix s "\r\n"`. -/
def hasSuffixCRLF (l : List Char) : Bool :=
  leadsWith crlf.reverse l.reverse

/-- The bytes `SignEmail` hands to `pkcs7.NewSignedData`, i.e. the bytes the
PKCS#7 hash consumes: the `emailContent` argument unchanged (the Go code
performs no transformation before signing). -/
def signEmailDigestInput (emailContent : List Char) : List Char :=
  emailContent

/-- Go `formatBase64`: re-wraps a base64 string at 76 columns with CRLF
separators and no trailing separator. -/
def formatBase64 (data : List Char) : List Char :=
  if data.length ≤ 76 then data
  else data.take 76 ++ crlf ++ formatBase64 (data.drop 76)
termination_by data.length
decreasing_by
  simp only [List.length_drop]
  omega

/-- `CreateSignedMimeMessage` of the Go source, one list append per
`WriteString` call, with the base64-encoded DER signature passed in opaquely
(the cryptography itself is outside the embedding). -/
def CreateSignedMimeMessage (emailContent sigB64 : List Char) : List Char :=
  "MIME-Version: 1.0".toList ++ crlf ++
  ("Content-Type: multipart/signed; protocol=\"application/pkcs7-signature\"; micalg=sha256; boundary=\"".toList
    ++ smimeBoundary ++ "\"".toList ++ crlf) ++
  crlf ++
  "This is an S/MIME signed message".toList ++ crlf ++
  crlf ++
  ("--".toList ++ smimeBoundary ++ crlf) ++
  emailContent ++
  (if hasSuffixCRLF emailContent then [] else crlf) ++
  crlf ++
  ("--".toList ++ smimeBoundary ++ crlf) ++
  "Content-Type: application/pkcs7-signature; name=\"smime.p7s\"".toList ++ crlf ++
  "Content-Transfer-Encoding: base64".toList ++ crlf ++
  "Content-Disposition: attachment; filename=\"smime.p7s\"".toList ++ crlf ++
  crlf ++
  formatBase64 sigB64 ++
  crlf ++
  ("--".toList ++ smimeBoundary ++ "--".toList ++ crlf)

/-- The bytes written into the payload slot of the multipart, between the
opening boundary line and the boundary line that precedes the signature
part. -/
def payloadSection (emailContent : List Char) : List Char :=
  emailContent ++ (if hasSuffixCRLF emailContent then [] else crlf) ++ crlf

/-- Everything `CreateSignedMimeMessage` writes before the payload slot. -/
def smimePrologue : List Char :=
  "MIME-Version: 1.0".toList ++ crlf ++
  ("Content-Type: multipart/signed; protocol=\"application/pkcs7-signature\"; micalg=sha256; boundary=\"".toList
    ++ smimeBoundary ++ "\"".toList ++ crlf) ++
  crlf ++
  "This is an S/MIME signed message".toList ++ crlf ++
  crlf ++
  ("--".toList ++ smimeBoundary ++ crlf)

/-- Everything `CreateSignedMimeMessage` writes after the payload slot. -/
def smimeSigSection (sigB64 : List Char) : List Char :=
  ("--".toList ++ smimeBoundary ++ crlf) ++
  "Content-Type: application/pkcs7-signature; name=\"smime.p7s\"".toList ++ crlf ++
  "Content-Transfer-Encoding: base64".toList ++ crlf ++
  "Content-Disposition: attachment; filename=\"smime.p7s\"".toList ++ crlf ++
  crlf ++
  formatBase64 sigB64 ++
  crlf ++
  ("--".toList ++ smimeBoundary ++ "--".toList ++ crlf)

/-- The CRLF normalization spec section 4.4 step 1 demands: every bare LF
becomes CRLF, existing CRLF pairs are preserved. -/
def normalizeCRLF : List Char → List Char
  | [] => []
  | '\r' :: '\n' :: rest => '\r' :: '\n' :: normalizeCRLF rest
  | '\n' :: rest => '\r' :: '\n' :: normalizeCRLF rest
  | c :: rest => c :: normalizeCRLF rest

/-- C4, counterexample: the claim says the signed bytes are the
CRLF-normalized payload and the payload part is byte-identical to them with
no trailing modification; on the payload `"x\ny"` the code signs the bytes
with the bare LF intact and writes two trailing CRLFs after them. -/
theorem signer_payload_claim_false :
    ¬ ∀ input : List Char,
        signEmailDigestInput input = normalizeCRLF input ∧
        payloadSection input = signEmailDigestInput input := by
  intro hall
  have := hall "x\ny".toList
  revert this
  decide

/-- C4, amended: the PKCS#7 signature is computed over the payload bytes
unchanged (no line-ending normalization), and the payload slot of the
`multipart/signed` body holds exactly those signed bytes followed by one
trailing CRLF, preceded by a second CRLF when the signed bytes do not
already end in CRLF; the assembled message is prologue, payload slot, then
signature section. -/
theorem signer_payload_actual (input sigB64 : List Char) :
    signEmailDigestInput input = input ∧
    payloadSection input =
      signEmailDigestInput input ++
        (if hasSuffixCRLF input then crlf else crlf ++ crlf) ∧
    CreateSignedMimeMessage input sigB64 =
      smimePrologue ++ payloadSection input ++ smimeSigSection sigB64 := by
  refine ⟨rfl, ?_, ?_⟩
  · unfold payloadSection signEmailDigestInput
    cases hs : hasSuffixCRLF input <;> simp
  · unfold CreateSignedMimeMessage smimePrologue payloadSection smimeSigSection
    simp only [List.append_assoc]

/-! ### Header construction (`message.Header.Set` semantics) -/

/-- `message.Header.Set k v`: after the call the header holds exactly one
value for the (case-insensitive) key `k`. -/
def hset (h : HeaderView) (k v : String) : HeaderView :=
  (k, v) :: h.filter (fun p => !(keyEq p.1 k))

/-- Number of values a header carries for the (case-insensitive) key `k`. -/
def countKey (h : HeaderView) (k : String) : Nat :=
  (h.filter (fun p => keyEq p.1 k)).length

theorem keyEq_iff (a b : String) :
    keyEq a b = true ↔ asciiLower a = asciiLower b := by
  unfold keyEq
  exact beq_iff_eq

theorem keyEq_trans {a b c : String} (hab : keyEq a b = true)
    (hbc : keyEq b c = true) : keyEq a c = true := by
  rw [keyEq_iff] at *
  exact hab.trans hbc

theorem keyEq_symm {a b : String} (hab : keyEq a b = true) :
    keyEq b a = true := by
  rw [keyEq_iff] at *
  exact hab.symm

theorem hdrGet_cons (pk pv : String) (rest : HeaderView) (name : String) :
    hdrGet ((pk, pv) :: rest) name =
      if keyEq pk name = true then pv else hdrGet rest name := rfl

theorem hdrGet_hset_same (h : HeaderView) (k v k' : String)
    (hk : keyEq k k' = true) : hdrGet (hset h k v) k' = v := by
  unfold hset
  rw [hdrGet_cons, if_pos hk]

theorem hdrGet_filterOut (h : HeaderView) (k k' : String)
    (hk : keyEq k k' = false) :
    hdrGet (h.filter (fun p => !(keyEq p.1 k))) k' = hdrGet h k' := by
  induction h with
  | nil => rfl
  | cons p rest ih =>
    obtain ⟨pk, pv⟩ := p
    by_cases hp : keyEq pk k = true
    · have hp' : keyEq pk k' = false := by
        rw [Bool.eq_false_iff]
        intro hcon
        have : keyEq k k' = true := keyEq_trans (keyEq_symm hp) hcon
        rw [hk] at this
        exact Bool.false_ne_true this
      simp only [List.filter, hp, Bool.not_true]
      rw [ih, hdrGet_cons, if_neg (by rw [hp']; exact Bool.false_ne_true)]
    · have hp' : keyEq pk k = false := Bool.eq_false_iff.mpr hp
      simp only [List.filter, hp', Bool.not_false]
      rw [hdrGet_cons, hdrGet_cons]
      by_cases hpk : keyEq pk k' = true
      · rw [if_pos hpk, if_pos hpk]
      · rw [if_neg hpk, if_neg hpk]
        exact ih

theorem hdrGet_hset_other (h : HeaderView) (k v k' : String)
    (hk : keyEq k k' = false) :
    hdrGet (hset h k v) k' = hdrGet h k' := by
  unfold hset
  rw [hdrGet_cons, if_neg (by rw [hk]; exact Bool.false_ne_true)]
  exact hdrGet_filterOut h k k' hk

theorem countKey_hset_same (h : HeaderView) (k v k' : String)
    (hk : keyEq k k' = true) : countKey (hset h k v) k' = 1 := by
  unfold hset countKey
  simp only [List.filter, hk, List.length_cons]
  have hnil : (List.filter (fun p => keyEq p.1 k')
      (List.filter (fun p => !(keyEq p.1 k)) h)) = [] := by
    rw [List.filter_filter]
    apply List.filter_eq_nil_iff.mpr
    intro p _
    by_cases hp : keyEq p.1 k = true
    · simp [hp]
    · have hp' : keyEq p.1 k' = false := by
        rw [Bool.eq_false_iff]
        intro hcon
        exact hp (keyEq_trans hcon (keyEq_symm hk))
      simp [hp']
  rw [hnil]
  rfl

theorem countKey_hset_other (h : HeaderView) (k v k' : String)
    (hk : keyEq k k' = false) :
    countKey (hset h k v) k' = countKey h k' := by
  unfold hset countKey
  simp only [List.filter, hk]
  rw [List.filter_filter]
  congr 1
  apply List.filter_congr
  intro p _
  by_cases hp : keyEq p.1 k' = true
  · have hp' : keyEq p.1 k = false := by
      rw [Bool.eq_false_iff]
      intro hcon
      have : keyEq k k' = true := keyEq_trans (keyEq_symm hcon) hp
      rw [hk] at this
      exact Bool.false_ne_true this
    simp [hp, hp']
  · simp [Bool.eq_false_iff.mpr hp]

/-! ### C5/C6: artifact builders and their headers -/

/-- Header of the entity parsed back from the `CreateSignedMimeMessage`
output: before the receipt headers are set, the signed entity carries only
these two fields (no `Message-ID`). -/
def signedEntityHeaders : HeaderView :=
  [("MIME-Version", "1.0"),
   ("Content-Type", "multipart/signed; protocol=\"application/pkcs7-signature\"; micalg=sha256; boundary=\"----=_NextPart_000_0000_01234567.89ABCDEF\"")]

/-- Header construction of `GenerateAcceptanceEmail` (punto-accesso.go): the
six `Set` calls applied to the signed entity. The recipient list enters only
the human-readable body and the XML; time-dependent values arrive as
rendered strings. -/
def GenerateAcceptanceEmailHeaders
    (domain messageID fromAddr subject dateStr : String) : HeaderView :=
  hset (hset (hset (hset (hset (hset signedEntityHeaders
    "X-Ricevuta" "accettazione")
    "Date" dateStr)
    "Subject" ("ACCETTAZIONE: " ++ subject))
    "From" ("posta-certificata@" ++ domain))
    "To" fromAddr)
    "X-Riferimento-Message-ID" messageID

/-- Header construction of `GenerateNonAcceptanceEmail` (punto-accesso.go). -/
def GenerateNonAcceptanceEmailHeaders
    (domain messageID fromAddr subject dateStr : String) : HeaderView :=
  hset (hset (hset (hset (hset (hset signedEntityHeaders
    "X-Ricevuta" "non-accettazione")
    "Date" dateStr)
    "Subject" ("AVVISO DI NON ACCETTAZIONE: " ++ subject))
    "From" ("posta-certificata@" ++ domain))
    "To" fromAddr)
    "X-Riferimento-Message-ID" messageID

/-! ### C7/C8: the delivery receipt (punto-consegna session) -/

/-- The `ReceiptType` constants of the Go source. -/
inductive ReceiptType where
  | ReceiptTypeNormal
  | ReceiptTypeShort
  | ReceiptTypeSynthetic
deriving DecidableEq, Repr

/-- `parseReceiptType`: lower-cased, trimmed `X-TipoRicevuta` value selects
the receipt type, defaulting to normal. -/
def parseReceiptType (h : HeaderView) : ReceiptType :=
  let tipoRicevuta := asciiLower (trimSpace (hdrGet h "X-TipoRicevuta"))
  if tipoRicevuta == "breve" then ReceiptType.ReceiptTypeShort
  else if tipoRicevuta == "sintetica" then ReceiptType.ReceiptTypeSynthetic
  else ReceiptType.ReceiptTypeNormal

/-- The `RecipientType` constants of the Go source. -/
inductive RecipientType where
  | RecipientTypePrimary
  | RecipientTypeCC
  | RecipientTypeAmbiguous
deriving DecidableEq, Repr

/-- The Cc half of `determineRecipientType`: scan the parsed `Cc` addresses
(`none` covers both an absent `Cc` field and a parse failure). -/
def ccScan (ccRes : Option (List String)) (recipient : String) : RecipientType :=
  match ccRes with
  | some ccAddresses =>
    if ccAddresses.any (fun a => equalFold a recipient) then
      RecipientType.RecipientTypeCC
    else RecipientType.RecipientTypeAmbiguous
  | none => RecipientType.RecipientTypeAmbiguous

/-- `determineRecipientType` of the Go source: primary when the recipient is
among the parsed `To` addresses, Cc when only among the parsed `Cc`
addresses, ambiguous otherwise. -/
def determineRecipientType (toRes ccRes : Option (List String))
    (recipient : String) : RecipientType :=
  match toRes with
  | some toAddresses =>
    if toAddresses.any (fun a => equalFold a recipient) then
      RecipientType.RecipientTypePrimary
    else ccScan ccRes recipient
  | none => ccScan ccRes recipient

/-- MIME parts a receipt body can carry. -/
inductive Part where
  | textPart
  | xmlPart
  | rfc822Part
deriving DecidableEq, Repr

/-- A receipt body: either the multipart/mixed part list of the normal
receipt, or the single plain-text reader of the short/synthetic bodies. -/
inductive ReceiptBody where
  | parts (ps : List Part)
  | text (content : String)
deriving DecidableEq, Repr

/-- `createNormalReceiptBody`: text part, certification XML part, and the
original message iff the recipient is primary or ambiguous. -/
def createNormalReceiptBody (toRes ccRes : Option (List String))
    (recipient : String) : ReceiptBody :=
  let recipientType := determineRecipientType toRes ccRes recipient
  let includeOriginal := recipientType == RecipientType.RecipientTypePrimary ||
    recipientType == RecipientType.RecipientTypeAmbiguous
  ReceiptBody.parts ([Part.textPart, Part.xmlPart] ++
    (if includeOriginal then [Part.rfc822Part] else []))

/-- `createShortReceiptBody`: a single plain-text reader (the Go function
returns `strings.NewReader(content)`, no multipart and no XML part). -/
def createShortReceiptBody (recipient dateTimeStr origMsgID : String) :
    ReceiptBody :=
  ReceiptBody.text ("Ricevuta di avvenuta consegna - BREVE\n\nDestinatario: "
    ++ recipient ++ "\nData consegna: " ++ dateTimeStr ++ "\nID: "
    ++ origMsgID ++ "\n\n[TODO: Include essential XML certification data only]")

/-- `createSyntheticReceiptBody`: a single plain-text reader. -/
def createSyntheticReceiptBody (recipient dateTimeStr : String) : ReceiptBody :=
  ReceiptBody.text ("Ricevuta sintetica\n\nConsegnato: " ++ recipient ++ " - "
    ++ dateTimeStr ++ "\n\n[TODO: Include minimal certification data]")

/-- The headers `createDeliveryReceipt` sets: the seven fixed fields and the
`X-Tipo-Ricevuta` tag of the parsed receipt type. -/
def createDeliveryReceiptHeaders (origHeaders : HeaderView)
    (msgID dateStr domain : String) : HeaderView :=
  let originalSubject :=
    if hdrGet origHeaders "Subject" = "" then "(nessun oggetto)"
    else hdrGet origHeaders "Subject"
  let header :=
    hset (hset (hset (hset (hset (hset (hset ([] : HeaderView)
      "Message-ID" msgID)
      "X-Ricevuta" "avvenuta-consegna")
      "Date" dateStr)
      "Subject" ("CONSEGNA: " ++ originalSubject))
      "From" ("posta-certificata@" ++ domain))
      "To" (hdrGet origHeaders "From"))
      "X-Riferimento-Message-ID" (hdrGet origHeaders "Message-ID")
  match parseReceiptType origHeaders with
  | ReceiptType.ReceiptTypeShort => hset header "X-Tipo-Ricevuta" "breve"
  | ReceiptType.ReceiptTypeSynthetic => hset header "X-Tipo-Ricevuta" "sintetica"
  | ReceiptType.ReceiptTypeNormal => hset header "X-Tipo-Ricevuta" "normale"

/-- A delivery receipt artifact: headers plus body. -/
structure DeliveryReceipt where
  headers : HeaderView
  body : ReceiptBody
deriving DecidableEq, Repr

/-- `createDeliveryReceipt` of the Go source: headers per the receipt type
and the body produced by the matching body builder. The fresh message id
(`common.GenerateMessageID`) and the rendered timestamps are passed in. -/
def createDeliveryReceipt (origHeaders : HeaderView)
    (toRes ccRes : Option (List String))
    (recipient msgID dateStr dateTimeStr domain : String) : DeliveryReceipt :=
  let body :=
    match parseReceiptType origHeaders with
    | ReceiptType.ReceiptTypeNormal => createNormalReceiptBody toRes ccRes recipient
    | ReceiptType.ReceiptTypeShort =>
      createShortReceiptBody recipient dateTimeStr (hdrGet origHeaders "Message-ID")
    | ReceiptType.ReceiptTypeSynthetic =>
      createSyntheticReceiptBody recipient dateTimeStr
  ⟨createDeliveryReceiptHeaders origHeaders msgID dateStr domain, body⟩

/-- Header construction of `createNonDeliveryNotice` (punto-consegna
session): note the `From` is `postmaster@<domain>` and the back reference
uses `References`, not `X-Riferimento-Message-ID`. -/
def createNonDeliveryNoticeHeaders (origHeaders : HeaderView)
    (domain msgID dateStr : String) : HeaderView :=
  hset (hset (hset (hset (hset (hset (hset ([] : HeaderView)
    "Message-ID" msgID)
    "Date" dateStr)
    "From" ("postmaster@" ++ domain))
    "To" (hdrGet origHeaders "From"))
    "Subject" "Avviso di mancata consegna")
    "X-Ricevuta" "mancata-consegna")
    "References" (hdrGet origHeaders "Message-ID")

/-- The headers `CreatePECTransportEnvelope` inherits from the original. -/
def inheritedHeaders : List String :=
  ["Received", "To", "Cc", "Return-Path", "Message-ID",
   "X-Riferimento-Message-ID", "X-TipoRicevuta"]

/-- One iteration of the inheritance loop: copy the field when non-empty. -/
def inheritStep (orig : HeaderView) (env : HeaderView) (name : String) :
    HeaderView :=
  if hdrGet orig name ≠ "" then hset env name (hdrGet orig name) else env

/-- Header construction of `CreatePECTransportEnvelope` (punto-accesso.go):
inherit the listed fields, then set the transport fields; `From` becomes
`Per conto di: <original From>` and `Reply-To` is added only when the
original lacked one. At the `ProcessPECMessage` call site `originalFrom` and
`subject` come from the original message's `From` and `Subject` headers. -/
def CreatePECTransportEnvelopeHeaders (orig : HeaderView)
    (originalFrom subject dateStr : String) : HeaderView :=
  let env := inheritedHeaders.foldl (inheritStep orig) []
  let env := hset env "X-Trasporto" "posta-certificata"
  let env := hset env "Date" dateStr
  let env := hset env "Subject" ("POSTA CERTIFICATA: " ++ subject)
  let env := hset env "From" ("Per conto di: " ++ originalFrom)
  if hdrGet orig "Reply-To" = "" then hset env "Reply-To" originalFrom else env

/-! ### C5: Message-ID presence and generation -/

/-- Decimal digit character of `n % 10`. -/
def digitChar (n : Nat) : Char := Char.ofNat (48 + n % 10)

/-- Zero-padded six-digit decimal rendering of a microsecond count. -/
def pad6 (n : Nat) : List Char :=
  [digitChar (n / 100000), digitChar (n / 10000), digitChar (n / 1000),
   digitChar (n / 100), digitChar (n / 10), digitChar n]

/-- Modelled from the spec: `common.GenerateMessageID` is called by
`createDeliveryReceipt`, `createCertificationXML` and
`createNonDeliveryNotice` but its definition is nowhere in the source tree;
spec section 6 gives the generated format
`opec<YYMMDD>.<YYYYMMDDhhmmss.microsec.nnn.1.53>@<domain>` with a six-digit
microsecond field. The date and second-resolution fields arrive as rendered
strings, the microsecond field as a number below one million. -/
def GenerateMessageID (domain dateYYMMDD longStamp : String) (micro : Nat)
    (nnn : String) : List Char :=
  "opec".toList ++ dateYYMMDD.toList ++ ".".toList ++ longStamp.toList ++
    ".".toList ++ pad6 micro ++ ".".toList ++ nnn.toList ++
    ".1.53@".toList ++ domain.toList

theorem digitChar_toNat (n : Nat) : (digitChar n).toNat = 48 + n % 10 := by
  have h : n % 10 < 10 := Nat.mod_lt _ (by norm_num)
  unfold digitChar
  set m := n % 10 with hm
  interval_cases m <;> rfl

theorem pad6_inj {m n : Nat} (hm : m < 1000000) (hn : n < 1000000)
    (h : pad6 m = pad6 n) : m = n := by
  unfold pad6 at h
  simp only [List.cons.injEq, and_true] at h
  obtain ⟨h1, h2, h3, h4, h5, h6⟩ := h
  have e1 := congrArg Char.toNat h1
  have e2 := congrArg Char.toNat h2
  have e3 := congrArg Char.toNat h3
  have e4 := congrArg Char.toNat h4
  have e5 := congrArg Char.toNat h5
  have e6 := congrArg Char.toNat h6
  rw [digitChar_toNat, digitChar_toNat] at e1 e2 e3 e4 e5 e6
  omega

theorem countKey_inheritStep_other (orig env : HeaderView) (name k : String)
    (hk : keyEq name k = false) :
    countKey (inheritStep orig env name) k = countKey env k := by
  unfold inheritStep
  by_cases h : hdrGet orig name ≠ ""
  · rw [if_pos h, countKey_hset_other _ _ _ _ hk]
  · rw [if_neg h]

theorem countKey_inheritStep_midOnce (orig env : HeaderView) :
    countKey (inheritStep orig env "Message-ID") "Message-ID" =
      if hdrGet orig "Message-ID" = "" then countKey env "Message-ID"
      else 1 := by
  unfold inheritStep
  by_cases h : hdrGet orig "Message-ID" = ""
  · rw [if_neg (by simpa using h), if_pos h]
  · rw [if_pos (by simpa using h), if_neg h,
      countKey_hset_same _ _ _ _ (by decide)]

theorem countKey_inherit_chain (orig : HeaderView) :
    countKey (inheritedHeaders.foldl (inheritStep orig) []) "Message-ID" =
      if hdrGet orig "Message-ID" = "" then 0 else 1 := by
  unfold inheritedHeaders
  simp only [List.foldl]
  rw [countKey_inheritStep_other _ _ _ _ (by decide),
    countKey_inheritStep_other _ _ _ _ (by decide),
    countKey_inheritStep_midOnce]
  by_cases h : hdrGet orig "Message-ID" = ""
  · rw [if_pos h, if_pos h]
    rw [countKey_inheritStep_other _ _ _ _ (by decide),
      countKey_inheritStep_other _ _ _ _ (by decide),
      countKey_inheritStep_other _ _ _ _ (by decide),
      countKey_inheritStep_other _ _ _ _ (by decide)]
    rfl
  · rw [if_neg h, if_neg h]

/-- C5, counterexample: an acceptance receipt emitted by the access point
carries zero `Message-ID` header values, not exactly one. -/
theorem generateAcceptanceEmail_no_messageID :
    countKey (GenerateAcceptanceEmailHeaders "localhost" "<m1@a.it>"
      "alice@a.it" "Test" "Mon, 01 Jan 2024 10:00:00 +0100") "Message-ID"
      = 0 := by decide

/-- C5, amended: the delivery receipt and the delivery-error notice carry
exactly one `Message-ID` value; the acceptance and non-acceptance receipts
carry none; the transport envelope carries one exactly when the original
message had one (inherited, not fresh); and Message-ID values generated
(spec-modelled generator) at the same second but distinct microsecond counts
differ. -/
theorem messageID_presence_actual :
    (∀ origHeaders toRes ccRes r msgID dateStr dtStr domain,
      countKey (createDeliveryReceipt origHeaders toRes ccRes r msgID dateStr
        dtStr domain).headers "Message-ID" = 1) ∧
    (∀ origHeaders domain msgID dateStr,
      countKey (createNonDeliveryNoticeHeaders origHeaders domain msgID
        dateStr) "Message-ID" = 1) ∧
    (∀ domain messageID fromAddr subject dateStr,
      countKey (GenerateAcceptanceEmailHeaders domain messageID fromAddr
        subject dateStr) "Message-ID" = 0) ∧
    (∀ domain messageID fromAddr subject dateStr,
      countKey (GenerateNonAcceptanceEmailHeaders domain messageID fromAddr
        subject dateStr) "Message-ID" = 0) ∧
    (∀ orig fromA subject dateStr,
      countKey (CreatePECTransportEnvelopeHeaders orig fromA subject dateStr)
        "Message-ID" = if hdrGet orig "Message-ID" = "" then 0 else 1) ∧
    (∀ domain date long m n nnn, m < 1000000 → n < 1000000 → m ≠ n →
      GenerateMessageID domain date long m nnn ≠
        GenerateMessageID domain date long n nnn) := by
  refine ⟨?_, ?_, ?_, ?_, ?_, ?_⟩
  · intro origHeaders toRes ccRes r msgID dateStr dtStr domain
    unfold createDeliveryReceipt createDeliveryReceiptHeaders
    simp only []
    cases parseReceiptType origHeaders <;>
      simp only [] <;>
        rw [countKey_hset_other _ _ _ _ (by decide),
          countKey_hset_other _ _ _ _ (by decide),
          countKey_hset_other _ _ _ _ (by decide),
          countKey_hset_other _ _ _ _ (by decide),
          countKey_hset_other _ _ _ _ (by decide),
          countKey_hset_other _ _ _ _ (by decide),
          countKey_hset_other _ _ _ _ (by decide),
          countKey_hset_same _ _ _ _ (by decide)]
  · intro origHeaders domain msgID dateStr
    unfold createNonDeliveryNoticeHeaders
    rw [countKey_hset_other _ _ _ _ (by decide),
      countKey_hset_other _ _ _ _ (by decide),
      countKey_hset_other _ _ _ _ (by decide),
      countKey_hset_other _ _ _ _ (by decide),
      countKey_hset_other _ _ _ _ (by decide),
      countKey_hset_other _ _ _ _ (by decide),
      countKey_hset_same _ _ _ _ (by decide)]
  · intro domain messageID fromAddr subject dateStr
    unfold GenerateAcceptanceEmailHeaders
    rw [countKey_hset_other _ _ _ _ (by decide),
      countKey_hset_other _ _ _ _ (by decide),
      countKey_hset_other _ _ _ _ (by decide),
      countKey_hset_other _ _ _ _ (by decide),
      countKey_hset_other _ _ _ _ (by decide),
      countKey_hset_other _ _ _ _ (by decide)]
    decide
  · intro domain messageID fromAddr subject dateStr
    unfold GenerateNonAcceptanceEmailHeaders
    rw [countKey_hset_other _ _ _ _ (by decide),
      countKey_hset_other _ _ _ _ (by decide),
      countKey_hset_other _ _ _ _ (by decide),
      countKey_hset_other _ _ _ _ (by decide),
      countKey_hset_other _ _ _ _ (by decide),
      countKey_hset_other _ _ _ _ (by decide)]
    decide
  · intro orig fromA subject dateStr
    unfold CreatePECTransportEnvelopeHeaders
    simp only []
    by_cases hrt : hdrGet orig "Reply-To" = ""
    · rw [if_pos hrt, countKey_hset_other _ _ _ _ (by decide)]
      rw [countKey_hset_other _ _ _ _ (by decide),
        countKey_hset_other _ _ _ _ (by decide),
        countKey_hset_other _ _ _ _ (by decide),
        countKey_hset_other _ _ _ _ (by decide)]
      rw [countKey_inherit_chain orig]
    · rw [if_neg hrt]
      rw [countKey_hset_other _ _ _ _ (by decide),
        countKey_hset_other _ _ _ _ (by decide),
        countKey_hset_other _ _ _ _ (by decide),
        countKey_hset_other _ _ _ _ (by decide)]
      rw [countKey_inherit_chain orig]
  · intro domain date long m n nnn hm hn hmn heq
    unfold GenerateMessageID at heq
    simp only [List.append_assoc] at heq
    apply hmn
    apply pad6_inj hm hn
    have h1 := List.append_cancel_left heq
    have h2 := List.append_cancel_left h1
    have h3 := List.append_cancel_left h2
    have h4 := List.append_cancel_left h3
    have h5 := List.append_cancel_left h4
    exact (List.append_inj h5 rfl).1

/-- C5 witness: two Message-IDs generated in the same second with distinct
microsecond counts differ, via the main theorem. -/
theorem messageID_presence_actual_witness :
    GenerateMessageID "localhost" "240101" "20240101100000" 1 "001" ≠
      GenerateMessageID "localhost" "240101" "20240101100000" 2 "001" :=
  messageID_presence_actual.2.2.2.2.2 "localhost" "240101" "20240101100000"
    1 2 "001" (by decide) (by decide) (by decide)

/-! ### C6: the `From` header of emitted artifacts -/

/-- C6, counterexample: the delivery-error notice does not carry
`posta-certificata@<domain>` in `From` (it carries `postmaster@<domain>`). -/
theorem emittedFrom_claim_false :
    ¬ (∀ (origHeaders : HeaderView) (domain msgID dateStr : String),
        hdrGet (createNonDeliveryNoticeHeaders origHeaders domain msgID
          dateStr) "From" = "posta-certificata@" ++ domain) := by
  intro hall
  have := hall [] "localhost" "<id1>" "d"
  revert this
  decide

theorem createDeliveryReceipt_headers_eq (origHeaders : HeaderView)
    (toRes ccRes : Option (List String))
    (recipient msgID dateStr dateTimeStr domain : String) :
    (createDeliveryReceipt origHeaders toRes ccRes recipient msgID dateStr
      dateTimeStr domain).headers =
      createDeliveryReceiptHeaders origHeaders msgID dateStr domain := rfl

/-- C6, amended: acceptance, non-acceptance and delivery receipts carry
`From: posta-certificata@<domain>`; the delivery-error notice carries
`From: postmaster@<domain>`; the RP to DP transport envelope carries
`From: Per conto di: <original From>` with no `posta-certificata` address. -/
theorem emittedFrom_actual :
    (∀ domain messageID fromAddr subject dateStr,
      hdrGet (GenerateAcceptanceEmailHeaders domain messageID fromAddr
        subject dateStr) "From" = "posta-certificata@" ++ domain) ∧
    (∀ domain messageID fromAddr subject dateStr,
      hdrGet (GenerateNonAcceptanceEmailHeaders domain messageID fromAddr
        subject dateStr) "From" = "posta-certificata@" ++ domain) ∧
    (∀ origHeaders toRes ccRes r msgID dateStr dtStr domain,
      hdrGet (createDeliveryReceipt origHeaders toRes ccRes r msgID dateStr
        dtStr domain).headers "From" = "posta-certificata@" ++ domain) ∧
    (∀ origHeaders domain msgID dateStr,
      hdrGet (createNonDeliveryNoticeHeaders origHeaders domain msgID
        dateStr) "From" = "postmaster@" ++ domain) ∧
    (∀ orig fromA subject dateStr,
      hdrGet (CreatePECTransportEnvelopeHeaders orig fromA subject dateStr)
        "From" = "Per conto di: " ++ fromA) := by
  refine ⟨?_, ?_, ?_, ?_, ?_⟩
  · intro domain messageID fromAddr subject dateStr
    unfold GenerateAcceptanceEmailHeaders
    rw [hdrGet_hset_other _ _ _ _ (by decide),
      hdrGet_hset_other _ _ _ _ (by decide),
      hdrGet_hset_same _ _ _ _ (by decide)]
  · intro domain messageID fromAddr subject dateStr
    unfold GenerateNonAcceptanceEmailHeaders
    rw [hdrGet_hset_other _ _ _ _ (by decide),
      hdrGet_hset_other _ _ _ _ (by decide),
      hdrGet_hset_same _ _ _ _ (by decide)]
  · intro origHeaders toRes ccRes r msgID dateStr dtStr domain
    rw [createDeliveryReceipt_headers_eq]
    unfold createDeliveryReceiptHeaders
    simp only []
    cases parseReceiptType origHeaders <;>
      · rw [hdrGet_hset_other _ _ _ _ (by decide),
          hdrGet_hset_other _ _ _ _ (by decide),
          hdrGet_hset_other _ _ _ _ (by decide),
          hdrGet_hset_same _ _ _ _ (by decide)]
  · intro origHeaders domain msgID dateStr
    unfold createNonDeliveryNoticeHeaders
    rw [hdrGet_hset_other _ _ _ _ (by decide),
      hdrGet_hset_other _ _ _ _ (by decide),
      hdrGet_hset_other _ _ _ _ (by decide),
      hdrGet_hset_other _ _ _ _ (by decide),
      hdrGet_hset_same _ _ _ _ (by decide)]
  · intro orig fromA subject dateStr
    unfold CreatePECTransportEnvelopeHeaders
    simp only []
    by_cases hrt : hdrGet orig "Reply-To" = ""
    · rw [if_pos hrt, hdrGet_hset_other _ _ _ _ (by decide),
        hdrGet_hset_same _ _ _ _ (by decide)]
    · rw [if_neg hrt, hdrGet_hset_same _ _ _ _ (by decide)]

/-! ### C7: recipient primariness of the normal delivery receipt -/

/-- Membership of a recipient in a parsed address list, ASCII
case-insensitively; a parse failure (`none`) has no members. -/
def memAddr (r : String) : Option (List String) → Prop
  | some l => ∃ a ∈ l, equalFold a r = true
  | none => False

/-- Whether a receipt body carries the original `message/rfc822` part. -/
def bodyHasOriginal : ReceiptBody → Bool
  | ReceiptBody.parts ps => ps.contains Part.rfc822Part
  | ReceiptBody.text _ => false

/-- Whether a receipt body carries the certification XML part. -/
def bodyHasXml : ReceiptBody → Bool
  | ReceiptBody.parts ps => ps.contains Part.xmlPart
  | ReceiptBody.text _ => false

theorem any_equalFold_iff (l : List String) (r : String) :
    (l.any fun a => equalFold a r) = true ↔ ∃ a ∈ l, equalFold a r = true := by
  simp [List.any_eq_true]

theorem determineRecipientType_cc_iff (toRes ccRes : Option (List String))
    (r : String) :
    determineRecipientType toRes ccRes r = RecipientType.RecipientTypeCC ↔
      (¬ memAddr r toRes ∧ memAddr r ccRes) := by
  have hcc : ∀ res, ccScan res r = RecipientType.RecipientTypeCC ↔
      memAddr r res := by
    intro res
    cases res with
    | none => simp [ccScan, memAddr]
    | some l =>
      unfold ccScan
      dsimp only
      by_cases ha : (l.any fun a => equalFold a r) = true
      · rw [if_pos ha]
        simp only [memAddr, true_iff]
        exact (any_equalFold_iff l r).mp ha
      · rw [if_neg ha]
        simp only [memAddr]
        constructor
        · intro hcon
          exact absurd hcon (by decide)
        · intro hex
          exact absurd ((any_equalFold_iff l r).mpr hex) ha
  cases toRes with
  | none => simp [determineRecipientType, memAddr, hcc]
  | some tos =>
    unfold determineRecipientType
    dsimp only
    by_cases ha : (tos.any fun a => equalFold a r) = true
    · rw [if_pos ha]
      simp only [memAddr]
      constructor
      · intro hcon
        exact absurd hcon (by decide)
      · intro hx
        exact absurd ((any_equalFold_iff tos r).mp ha) hx.1
    · rw [if_neg ha]
      rw [hcc ccRes]
      simp only [memAddr]
      constructor
      · intro hc
        refine ⟨?_, hc⟩
        intro hex
        exact ha ((any_equalFold_iff tos r).mpr hex)
      · intro hc
        exact hc.2

theorem normalBody_hasOriginal_iff (toRes ccRes : Option (List String))
    (r : String) :
    bodyHasOriginal (createNormalReceiptBody toRes ccRes r) = true ↔
      determineRecipientType toRes ccRes r ≠ RecipientType.RecipientTypeCC := by
  unfold createNormalReceiptBody bodyHasOriginal
  simp only []
  cases hdt : determineRecipientType toRes ccRes r <;> decide

/-- C7: the normal delivery receipt contains the original `message/rfc822`
part iff the recipient appears among the parsed `To` addresses or in neither
`To` nor `Cc` (a parse failure contributes no members and so falls into the
primary treatment), and omits it iff the recipient appears in `Cc` and not
in `To`; address comparison is ASCII case-insensitive. -/
theorem deliveryReceipt_primariness (origHeaders : HeaderView)
    (toRes ccRes : Option (List String))
    (r msgID dateStr dtStr domain : String)
    (hn : parseReceiptType origHeaders = ReceiptType.ReceiptTypeNormal) :
    (bodyHasOriginal (createDeliveryReceipt origHeaders toRes ccRes r msgID
        dateStr dtStr domain).body = true ↔
      memAddr r toRes ∨ (¬ memAddr r toRes ∧ ¬ memAddr r ccRes)) ∧
    (bodyHasOriginal (createDeliveryReceipt origHeaders toRes ccRes r msgID
        dateStr dtStr domain).body = false ↔
      (memAddr r ccRes ∧ ¬ memAddr r toRes)) := by
  have hb : (createDeliveryReceipt origHeaders toRes ccRes r msgID dateStr
      dtStr domain).body = createNormalReceiptBody toRes ccRes r := by
    unfold createDeliveryReceipt
    simp only [hn]
  rw [hb]
  have hmain : bodyHasOriginal (createNormalReceiptBody toRes ccRes r)
      = true ↔ memAddr r toRes ∨ (¬ memAddr r toRes ∧ ¬ memAddr r ccRes) := by
    rw [normalBody_hasOriginal_iff]
    rw [show (determineRecipientType toRes ccRes r ≠
        RecipientType.RecipientTypeCC) =
      ¬ (determineRecipientType toRes ccRes r =
        RecipientType.RecipientTypeCC) from rfl]
    rw [determineRecipientType_cc_iff]
    constructor
    · intro hnc
      by_cases hto : memAddr r toRes
      · exact Or.inl hto
      · refine Or.inr ⟨hto, ?_⟩
        intro hcc
        exact hnc ⟨hto, hcc⟩
    · rintro (hto | ⟨hto, hcc⟩) ⟨hnto, hncc⟩
      · exact hnto hto
      · exact hcc hncc
  refine ⟨hmain, ?_⟩
  rw [Bool.eq_false_iff, Ne, hmain]
  constructor
  · intro hno
    by_cases hcc : memAddr r ccRes
    · refine ⟨hcc, ?_⟩
      intro hto
      exact hno (Or.inl hto)
    · exact absurd (Or.inr ⟨fun hto => hno (Or.inl hto), hcc⟩) hno
  · rintro ⟨hcc, hnto⟩ (hto | ⟨_, hncc⟩)
    · exact hnto hto
    · exact hncc hcc

/-- C7 witness: a recipient listed in `To` gets the original message
attached, via the main theorem. -/
theorem deliveryReceipt_primariness_witness :
    bodyHasOriginal (createDeliveryReceipt [] (some ["bob@b.it"]) none
      "bob@b.it" "<rid>" "d" "dt" "localhost").body = true :=
  (deliveryReceipt_primariness [] (some ["bob@b.it"]) none "bob@b.it"
      "<rid>" "d" "dt" "localhost" (by decide)).1.mpr
    (Or.inl ⟨"bob@b.it", by simp, by decide⟩)

/-! ### C8: the short (`breve`) delivery receipt -/

/-- C8: on a transport envelope carrying `X-TipoRicevuta: breve`, the
delivery receipt is tagged `X-Tipo-Ricevuta: breve` and its body is the
single plain-text short body: it carries no original message part but also
no certification XML part, contradicting the claim (and the code's own TODO
of including the essential certification data). -/
theorem createDeliveryReceipt_breve_eval :
    hdrGet (createDeliveryReceipt
      [("X-TipoRicevuta", "breve"), ("Subject", "Test"),
       ("From", "alice@a.it"), ("Message-ID", "<m1@a.it>")]
      (some ["bob@b.it"]) none "bob@b.it" "<rid>" "d" "dt"
      "localhost").headers "X-Tipo-Ricevuta" = "breve" ∧
    (createDeliveryReceipt
      [("X-TipoRicevuta", "breve"), ("Subject", "Test"),
       ("From", "alice@a.it"), ("Message-ID", "<m1@a.it>")]
      (some ["bob@b.it"]) none "bob@b.it" "<rid>" "d" "dt"
      "localhost").body = createShortReceiptBody "bob@b.it" "dt" "<m1@a.it>" ∧
    bodyHasXml (createDeliveryReceipt
      [("X-TipoRicevuta", "breve"), ("Subject", "Test"),
       ("From", "alice@a.it"), ("Message-ID", "<m1@a.it>")]
      (some ["bob@b.it"]) none "bob@b.it" "<rid>" "d" "dt"
      "localhost").body = false ∧
    bodyHasOriginal (createDeliveryReceipt
      [("X-TipoRicevuta", "breve"), ("Subject", "Test"),
       ("From", "alice@a.it"), ("Message-ID", "<m1@a.it>")]
      (some ["bob@b.it"]) none "bob@b.it" "<rid>" "d" "dt"
      "localhost").body = false := by
  refine ⟨by decide, by decide, by decide, by decide⟩

/-! ### C9/C10: the in-memory message store -/

/-- An incoming IMAP message: abstract payload plus its flag list. -/
structure IMsg where
  payload : Nat
  flags : List String
deriving DecidableEq, Repr

/-- A message as stored by `AddMessage`: the Go code mutates the incoming
message, setting `Uid`, `SeqNum` and possibly adding the recent flag. -/
structure StoredMsg where
  payload : Nat
  flags : List String
  uid : Nat
  seqNum : Nat
deriving DecidableEq, Repr

/-- The `InMemoryStore` state: Go maps modelled as total functions with the
Go zero values (`nil` slice as `none`, `uint32` zero as `0`). -/
structure InMemoryStore where
  messages : String → Option (List StoredMsg)
  nextUID : String → Nat

/-- `NewInMemoryStore`: both maps empty. -/
def NewInMemoryStore : InMemoryStore :=
  ⟨fun _ => none, fun _ => 0⟩

/-- Pointwise map update. -/
def upd {α : Type} (f : String → α) (k : String) (v : α) : String → α :=
  fun x => if x = k then v else f x

/-- `uint32` arithmetic wrap. -/
def u32 (n : Nat) : Nat := n % 4294967296

/-- Index of the first `'@'`, as Go `strings.Index` (none when absent). -/
def idxOfAt : List Char → Option Nat
  | [] => none
  | c :: cs => if c == '@' then some 0 else (idxOfAt cs).map (· + 1)

/-- The key transformation at the top of `AddMessage`: take the part before
the first `'@'`, but only when that `'@'` is not the first character
(`strings.Index(username, "@"); i > 0`). -/
def stripAt (username : String) : String :=
  match idxOfAt username.toList with
  | some i => if 0 < i then String.mk (username.toList.take i) else username
  | none => username

/-- The `imap.RecentFlag` constant. -/
def recentFlag : String := "\\Recent"

/-- `AddMessage` of in-memory.go: strip the username to the local part,
initialise a fresh mailbox with next UID 1, assign the sequential UID
(`uint32` increment), the sequence number, and the recent flag, then append.
Returns the store and the stored (mutated) message. -/
def AddMessage (s : InMemoryStore) (username : String) (m : IMsg) :
    InMemoryStore × StoredMsg :=
  let toKey := stripAt username
  let init :=
    match s.messages toKey with
    | none =>
      (([] : List StoredMsg),
        { s with messages := upd s.messages toKey (some []),
                 nextUID := upd s.nextUID toKey 1 })
    | some l => (l, s)
  let msgs := init.1
  let s₁ := init.2
  let uid := s₁.nextUID toKey
  let s₂ := { s₁ with nextUID := upd s₁.nextUID toKey (u32 (uid + 1)) }
  let flags := if m.flags.contains recentFlag then m.flags
    else m.flags ++ [recentFlag]
  let stored : StoredMsg := ⟨m.payload, flags, uid, msgs.length + 1⟩
  ({ s₂ with messages := upd s₂.messages toKey (some (msgs ++ [stored])) },
    stored)

/-- `GetMessages`: plain lookup of the unmodified username. -/
def GetMessages (s : InMemoryStore) (username : String) :
    Option (List StoredMsg) :=
  s.messages username

/-- `GetMessage`: first message with the given UID under the unmodified
username. -/
def GetMessage (s : InMemoryStore) (username : String) (uid : Nat) :
    Option StoredMsg :=
  (s.messages username).bind (List.find? (fun m => m.uid == uid))

/-- Removal of the first message carrying `uid` (identity when absent, as
the Go loop then falls through without writing). -/
def removeFirstUid : List StoredMsg → Nat → List StoredMsg
  | [], _ => []
  | m :: ms, uid => if m.uid == uid then ms else m :: removeFirstUid ms uid

/-- `DeleteMessage`: drop the first matching message under the unmodified
username; the next-UID counter is untouched. -/
def DeleteMessage (s : InMemoryStore) (username : String) (uid : Nat) :
    InMemoryStore :=
  match s.messages username with
  | some msgs =>
    { s with messages := upd s.messages username (some (removeFirstUid msgs uid)) }
  | none => s

theorem upd_same {α : Type} (f : String → α) (k : String) (v : α) :
    upd f k v k = v := by
  unfold upd
  rw [if_pos rfl]

theorem upd_other {α : Type} (f : String → α) (k : String) (v : α)
    (x : String) (hx : x ≠ k) : upd f k v x = f x := by
  unfold upd
  rw [if_neg hx]

/-- The mailbox list and stored message an `AddMessage` call produces at the
stripped key. -/
theorem AddMessage_at_key (s : InMemoryStore) (u : String) (m : IMsg) :
    (AddMessage s u m).1.messages (stripAt u) =
      some (((s.messages (stripAt u)).getD []) ++ [(AddMessage s u m).2]) ∧
    (AddMessage s u m).2.uid =
      (match s.messages (stripAt u) with
        | none => 1
        | some _ => s.nextUID (stripAt u)) ∧
    (AddMessage s u m).1.nextUID (stripAt u) =
      u32 ((AddMessage s u m).2.uid + 1) := by
  unfold AddMessage
  cases hm : s.messages (stripAt u) with
  | none =>
    refine ⟨?_, ?_, ?_⟩
    · simp only [hm, upd_same, Option.getD_none]
    · simp only [hm, upd_same]
    · simp only [hm, upd_same]
  | some l =>
    refine ⟨?_, ?_, ?_⟩
    · simp only [hm, upd_same, Option.getD_some]
    · simp only [hm]
    · simp only [hm, upd_same]

/-- `AddMessage` touches no key other than the stripped username. -/
theorem AddMessage_other_key (s : InMemoryStore) (u : String) (m : IMsg)
    (x : String) (hx : x ≠ stripAt u) :
    (AddMessage s u m).1.messages x = s.messages x ∧
    (AddMessage s u m).1.nextUID x = s.nextUID x := by
  unfold AddMessage
  cases hm : s.messages (stripAt u) with
  | none =>
    refine ⟨?_, ?_⟩ <;>
      · simp only [hm]
        rw [upd_other _ _ _ _ hx, upd_other _ _ _ _ hx]
  | some l =>
    refine ⟨?_, ?_⟩ <;>
      · simp only [hm]
        rw [upd_other _ _ _ _ hx]

/-- C9, counterexample: the claim quantifies over every username containing
an `'@'`, but for a username whose `'@'` is the first character
(`strings.Index` returns 0 and the code strips only when the index is
positive) the message is stored under the unmodified username and the
round trip with the full key does return the message just added. -/
theorem addMessage_roundTrip_claim_false :
    ¬ (∀ (s : InMemoryStore) (u : String) (m : IMsg),
        u.toList.contains '@' = true →
        GetMessages (AddMessage s u m).1 u = GetMessages s u) := by
  intro hall
  have h := hall NewInMemoryStore "@x" ⟨0, []⟩ (by decide)
  revert h
  unfold GetMessages NewInMemoryStore
  decide

theorem idxOfAt_lt (l : List Char) (i : Nat) (hi : idxOfAt l = some i) :
    i < l.length := by
  induction l generalizing i with
  | nil => exact absurd hi (by simp [idxOfAt])
  | cons c cs ih =>
    unfold idxOfAt at hi
    by_cases hc : (c == '@') = true
    · rw [if_pos hc] at hi
      cases hi
      simp
    · rw [if_neg hc] at hi
      simp only [Option.map_eq_some'] at hi
      obtain ⟨j, hj, rfl⟩ := hi
      have := ih j hj
      simp only [List.length_cons]
      omega

/-- C9, amended: for every username whose first `'@'` sits at a positive
index, `AddMessage` stores the message under the proper prefix before that
`'@'`, while `GetMessages`, `GetMessage` and `DeleteMessage` look up the
unmodified username; hence the add-then-get round trip with the full key
does not see the new message, and a delete via the full key cannot remove
it. -/
theorem addMessage_localPart (s : InMemoryStore) (u : String) (m : IMsg)
    (i : Nat) (hi : idxOfAt u.toList = some i) (hpos : 0 < i) :
    stripAt u = String.mk (u.toList.take i) ∧
    stripAt u ≠ u ∧
    GetMessages (AddMessage s u m).1 u = GetMessages s u ∧
    (∀ uid, GetMessage (AddMessage s u m).1 u uid = GetMessage s u uid) ∧
    GetMessages (AddMessage s u m).1 (stripAt u) =
      some (((s.messages (stripAt u)).getD []) ++ [(AddMessage s u m).2]) ∧
    (∀ uid, (DeleteMessage (AddMessage s u m).1 u uid).messages (stripAt u) =
      (AddMessage s u m).1.messages (stripAt u)) := by
  have hstrip : stripAt u = String.mk (u.toList.take i) := by
    unfold stripAt
    rw [hi]
    dsimp only
    rw [if_pos hpos]
  have hlt : i < u.toList.length := idxOfAt_lt u.toList i hi
  have hne : stripAt u ≠ u := by
    rw [hstrip]
    intro hcon
    have : (String.mk (u.toList.take i)).toList = u.toList := by rw [hcon]
    rw [show (String.mk (u.toList.take i)).toList = u.toList.take i from rfl]
      at this
    have hlen := congrArg List.length this
    rw [List.length_take] at hlen
    omega
  refine ⟨hstrip, hne, ?_, ?_, ?_, ?_⟩
  · unfold GetMessages
    exact (AddMessage_other_key s u m u (fun hcon => hne hcon.symm)).1
  · intro uid
    unfold GetMessage
    rw [(AddMessage_other_key s u m u (fun hcon => hne hcon.symm)).1]
  · unfold GetMessages
    exact (AddMessage_at_key s u m).1
  · intro uid
    unfold DeleteMessage
    cases hm2 : (AddMessage s u m).1.messages u with
    | none => rfl
    | some msgs =>
      simp only []
      rw [upd_other _ _ _ _ hne]

/-- C9 witness: a concrete round trip through the main theorem: adding under
`a@b` stores under `a` and leaves the lookup under `a@b` empty. -/
theorem addMessage_localPart_witness :
    GetMessages (AddMessage NewInMemoryStore "a@b" ⟨0, []⟩).1 "a@b" =
      GetMessages NewInMemoryStore "a@b" ∧
    GetMessages (AddMessage NewInMemoryStore "a@b" ⟨0, []⟩).1 "a" =
      some [(AddMessage NewInMemoryStore "a@b" ⟨0, []⟩).2] :=
  ⟨(addMessage_localPart NewInMemoryStore "a@b" ⟨0, []⟩ 1 (by decide)
      (by decide)).2.2.1,
   by
    have h := (addMessage_localPart NewInMemoryStore "a@b" ⟨0, []⟩ 1
      (by decide) (by decide)).2.2.2.2.1
    rw [show stripAt "a@b" = "a" by decide] at h
    simpa using h⟩

/-! ### C10: UID assignment across store lifetimes -/

/-- The mutating store operations. -/
inductive StoreOp where
  | add (username : String) (m : IMsg)
  | del (username : String) (uid : Nat)

/-- Apply one operation. -/
def applyOp (s : InMemoryStore) : StoreOp → InMemoryStore
  | StoreOp.add u m => (AddMessage s u m).1
  | StoreOp.del u uid => DeleteMessage s u uid

/-- Run a trace of operations from the fresh store. -/
def runOps (ops : List StoreOp) : InMemoryStore :=
  ops.foldl applyOp NewInMemoryStore

/-- Whether an operation adds into the mailbox keyed `k`. -/
def isAddTo (k : String) : StoreOp → Bool
  | StoreOp.add u _ => stripAt u == k
  | StoreOp.del _ _ => false

/-- Number of adds into mailbox `k` along a trace. -/
def addsTo (k : String) (ops : List StoreOp) : Nat :=
  (ops.filter (isAddTo k)).length

/-- State invariant of mailbox `k` after `a` adds into it: fresh mailboxes
are absent with counter zero; otherwise the counter is `(a + 1)` with
`uint32` wrap, and (before any wrap) stored UIDs lie in `[1, a]`. -/
def MailboxInv (k : String) (a : Nat) (s : InMemoryStore) : Prop :=
  (a = 0 → s.messages k = none ∧ s.nextUID k = 0) ∧
  (0 < a → ∃ l, s.messages k = some l ∧ s.nextUID k = u32 (a + 1) ∧
    (a ≤ 4294967294 → ∀ msg ∈ l, 1 ≤ msg.uid ∧ msg.uid ≤ a))

theorem removeFirstUid_subset (l : List StoredMsg) (uid : Nat)
    (m : StoredMsg) (hm : m ∈ removeFirstUid l uid) : m ∈ l := by
  induction l with
  | nil => exact absurd hm (by simp [removeFirstUid])
  | cons x xs ih =>
    unfold removeFirstUid at hm
    by_cases hx : (x.uid == uid) = true
    · rw [if_pos hx] at hm
      exact List.mem_cons_of_mem x hm
    · rw [if_neg hx] at hm
      rcases List.mem_cons.mp hm with rfl | hmem
      · exact List.mem_cons_self _ _
      · exact List.mem_cons_of_mem x (ih hmem)

theorem DeleteMessage_nextUID (s : InMemoryStore) (u : String) (uid : Nat) :
    (DeleteMessage s u uid).nextUID = s.nextUID := by
  unfold DeleteMessage
  cases hm : s.messages u with
  | none => rfl
  | some msgs => rfl

theorem applyOp_inv (k : String) (a : Nat) (s : InMemoryStore) (op : StoreOp)
    (h : MailboxInv k a s) :
    MailboxInv k (a + if isAddTo k op then 1 else 0) (applyOp s op) := by
  cases op with
  | del u uid =>
    have hz : (if isAddTo k (StoreOp.del u uid) then 1 else 0) = 0 := rfl
    rw [hz, Nat.add_zero]
    show MailboxInv k a (DeleteMessage s u uid)
    unfold DeleteMessage
    cases hm : s.messages u with
    | none => exact h
    | some msgs =>
      by_cases hk : u = k
      · subst hk
        constructor
        · intro ha0
          exact absurd ((h.1 ha0).1.symm.trans hm) (by simp)
        · intro hpos
          obtain ⟨l, hl, hn, hb⟩ := h.2 hpos
          rw [hm] at hl
          cases hl
          refine ⟨removeFirstUid msgs uid, ?_, hn, ?_⟩
          · simp only [upd_same]
          · intro hbound msg hmem
            exact hb hbound msg (removeFirstUid_subset msgs uid msg hmem)
      · constructor
        · intro ha0
          obtain ⟨h1, h2⟩ := h.1 ha0
          refine ⟨?_, h2⟩
          simp only []
          rw [upd_other _ _ _ _ (fun hcon => hk hcon.symm)]
          exact h1
        · intro hpos
          obtain ⟨l, hl, hn, hb⟩ := h.2 hpos
          refine ⟨l, ?_, hn, hb⟩
          simp only []
          rw [upd_other _ _ _ _ (fun hcon => hk hcon.symm)]
          exact hl
  | add u m =>
    show MailboxInv k (a + if isAddTo k (StoreOp.add u m) then 1 else 0)
      ((AddMessage s u m).1)
    by_cases hk : stripAt u = k
    · have hadd : isAddTo k (StoreOp.add u m) = true := by
        unfold isAddTo
        dsimp only
        rw [hk]
        exact beq_self_eq_true k
      rw [hadd, if_pos rfl]
      subst hk
      have hat := AddMessage_at_key s u m
      constructor
      · intro hcon
        omega
      · intro _
        rcases Nat.eq_zero_or_pos a with ha0 | hpos
        · subst ha0
          obtain ⟨hmn, hn0⟩ := h.1 rfl
          have huid : (AddMessage s u m).2.uid = 1 := by
            rw [hat.2.1, hmn]
          refine ⟨((s.messages (stripAt u)).getD []) ++ [(AddMessage s u m).2],
            hat.1, ?_, ?_⟩
          · rw [hat.2.2, huid]
          · intro _ msg hmem
            rw [hmn] at hmem
            simp only [Option.getD_none, List.nil_append,
              List.mem_singleton] at hmem
            subst hmem
            rw [huid]
            omega
        · obtain ⟨l, hl, hn, hb⟩ := h.2 hpos
          have huid : (AddMessage s u m).2.uid = u32 (a + 1) := by
            rw [hat.2.1, hl]
            dsimp only
            exact hn
          refine ⟨((s.messages (stripAt u)).getD []) ++ [(AddMessage s u m).2],
            hat.1, ?_, ?_⟩
          · rw [hat.2.2, huid]
            unfold u32
            omega
          · intro hbound msg hmem
            rw [hl] at hmem
            simp only [Option.getD_some, List.mem_append,
              List.mem_singleton] at hmem
            have hble : a ≤ 4294967294 := by omega
            rcases hmem with hmem | rfl
            · have := hb hble msg hmem
              omega
            · rw [huid]
              unfold u32
              omega
    · have hadd : isAddTo k (StoreOp.add u m) = false := by
        unfold isAddTo
        dsimp only
        rw [Bool.eq_false_iff]
        intro hcon
        exact hk (by simpa using hcon)
      rw [hadd, if_neg (by simp), Nat.add_zero]
      obtain ⟨ho1, ho2⟩ := AddMessage_other_key s u m k
        (fun hcon => hk hcon.symm)
      constructor
      · intro ha0
        obtain ⟨h1, h2⟩ := h.1 ha0
        exact ⟨ho1.trans h1, ho2.trans h2⟩
      · intro hpos
        obtain ⟨l, hl, hn, hb⟩ := h.2 hpos
        exact ⟨l, ho1.trans hl, ho2.trans hn, hb⟩

theorem foldl_inv (k : String) (ops : List StoreOp) :
    ∀ (s : InMemoryStore) (a : Nat), MailboxInv k a s →
      MailboxInv k (a + addsTo k ops) (ops.foldl applyOp s) := by
  induction ops with
  | nil =>
    intro s a h
    simpa [addsTo] using h
  | cons op rest ih =>
    intro s a h
    have hstep := applyOp_inv k a s op h
    have hrest := ih (applyOp s op) _ hstep
    have harith : a + (if isAddTo k op then 1 else 0) + addsTo k rest =
        a + addsTo k (op :: rest) := by
      unfold addsTo
      cases hio : isAddTo k op
      · simp [List.filter, hio]
      · simp [List.filter, hio]
        omega
    rw [harith] at hrest
    exact hrest

theorem runOps_inv (k : String) (ops : List StoreOp) :
    MailboxInv k (addsTo k ops) (runOps ops) := by
  have h0 : MailboxInv k 0 NewInMemoryStore := by
    constructor
    · intro _
      exact ⟨rfl, rfl⟩
    · intro hcon
      omega
  have := foldl_inv k ops NewInMemoryStore 0 h0
  simpa [runOps] using this

theorem addsTo_replicate (k u : String) (m : IMsg)
    (hk : isAddTo k (StoreOp.add u m) = true) (n : Nat) :
    addsTo k (List.replicate n (StoreOp.add u m)) = n := by
  induction n with
  | zero => rfl
  | succ n ih =>
    unfold addsTo at ih ⊢
    rw [List.replicate_succ]
    simp only [List.filter, hk, List.length_cons]
    omega

/-- C10, counterexample: the claim says the per-mailbox next-UID counter is
never decremented during the lifetime of the store, but the counter is a Go
`uint32`: after 4294967294 adds into mailbox `a` the counter holds
4294967295, and the next add wraps it to 0. -/
theorem storeUID_counter_claim_false :
    ¬ (∀ (ops : List StoreOp) (op : StoreOp) (k : String),
        (runOps ops).nextUID k ≤ (applyOp (runOps ops) op).nextUID k) := by
  intro hall
  have h := hall (List.replicate 4294967294 (StoreOp.add "a" ⟨0, []⟩))
    (StoreOp.add "a" ⟨0, []⟩) "a"
  have ha : addsTo "a" (List.replicate 4294967294 (StoreOp.add "a" ⟨0, []⟩))
      = 4294967294 :=
    addsTo_replicate "a" "a" ⟨0, []⟩ (by decide) 4294967294
  have hinv := runOps_inv "a"
    (List.replicate 4294967294 (StoreOp.add "a" ⟨0, []⟩))
  rw [ha] at hinv
  obtain ⟨l, hl, hn, _⟩ := hinv.2 (by omega)
  have hn' : (runOps (List.replicate 4294967294
      (StoreOp.add "a" ⟨0, []⟩))).nextUID "a" = 4294967295 := by
    rw [hn]
    unfold u32
    omega
  have hat := AddMessage_at_key
    (runOps (List.replicate 4294967294 (StoreOp.add "a" ⟨0, []⟩))) "a" ⟨0, []⟩
  rw [show stripAt "a" = "a" from by decide] at hat
  have huid : (AddMessage (runOps (List.replicate 4294967294
      (StoreOp.add "a" ⟨0, []⟩))) "a" ⟨0, []⟩).2.uid = 4294967295 := by
    rw [hat.2.1, hl, hn']
  have hafter : (applyOp (runOps (List.replicate 4294967294
      (StoreOp.add "a" ⟨0, []⟩))) (StoreOp.add "a" ⟨0, []⟩)).nextUID "a"
      = 0 := by
    show ((AddMessage _ "a" ⟨0, []⟩).1).nextUID "a" = 0
    rw [hat.2.2, huid]
    unfold u32
    omega
  rw [hafter, hn'] at h
  omega

/-- C10, amended: the first UID of a fresh mailbox is 1; as long as a
mailbox has seen at most 4294967294 adds (the `uint32` counter has not yet
wrapped), the UID assigned by the next `AddMessage` is the number of prior
adds plus one, strictly greater than every UID currently stored and
different from every UID ever assigned in that mailbox, in particular from
every UID freed by `DeleteMessage`; and `DeleteMessage` never modifies the
next-UID counter. -/
theorem storeUID_actual :
    (∀ (s : InMemoryStore) (u : String) (m : IMsg),
      s.messages (stripAt u) = none → (AddMessage s u m).2.uid = 1) ∧
    (∀ (ops : List StoreOp) (u : String) (m : IMsg),
      addsTo (stripAt u) ops ≤ 4294967294 →
      (AddMessage (runOps ops) u m).2.uid = addsTo (stripAt u) ops + 1 ∧
      (∀ msg ∈ ((runOps ops).messages (stripAt u)).getD [],
        msg.uid < (AddMessage (runOps ops) u m).2.uid)) ∧
    (∀ (s : InMemoryStore) (u : String) (uid : Nat),
      (DeleteMessage s u uid).nextUID = s.nextUID) ∧
    (∀ (ops : List StoreOp) (u : String) (m : IMsg) (j : Nat),
      addsTo (stripAt u) ops ≤ 4294967294 →
      1 ≤ j → j ≤ addsTo (stripAt u) ops →
      (AddMessage (runOps ops) u m).2.uid ≠ j) := by
  have hmain : ∀ (ops : List StoreOp) (u : String) (m : IMsg),
      addsTo (stripAt u) ops ≤ 4294967294 →
      (AddMessage (runOps ops) u m).2.uid = addsTo (stripAt u) ops + 1 ∧
      (∀ msg ∈ ((runOps ops).messages (stripAt u)).getD [],
        msg.uid < (AddMessage (runOps ops) u m).2.uid) := by
    intro ops u m hbound
    have hinv := runOps_inv (stripAt u) ops
    have hat := AddMessage_at_key (runOps ops) u m
    cases ha : addsTo (stripAt u) ops with
    | zero =>
      rw [ha] at hinv
      obtain ⟨hmn, _⟩ := hinv.1 rfl
      have huid : (AddMessage (runOps ops) u m).2.uid = 1 := by
        rw [hat.2.1, hmn]
        
      refine ⟨huid, ?_⟩
      intro msg hmem
      rw [hmn] at hmem
      simp at hmem
    | succ a' =>
      rw [ha] at hinv
      obtain ⟨l, hl, hn, hb⟩ := hinv.2 (by omega)
      have huid : (AddMessage (runOps ops) u m).2.uid = a' + 1 + 1 := by
        rw [hat.2.1, hl]
        dsimp only
        rw [hn]
        unfold u32
        omega
      refine ⟨huid, ?_⟩
      intro msg hmem
      rw [hl] at hmem
      simp only [Option.getD_some] at hmem
      have := hb (by omega) msg hmem
      omega
  refine ⟨?_, hmain, ?_, ?_⟩
  · intro s u m hmn
    have hat := AddMessage_at_key s u m
    rw [hat.2.1, hmn]
    
  · intro s u uid
    exact DeleteMessage_nextUID s u uid
  · intro ops u m j hbound hj1 hj2
    have := (hmain ops u m hbound).1
    omega

/-- C10 witness: the first two adds into a fresh mailbox get UIDs 1 and 2,
via the main theorem. -/
theorem storeUID_actual_witness :
    (AddMessage (runOps []) "a" ⟨0, []⟩).2.uid = 1 ∧
    (AddMessage (runOps [StoreOp.add "a" ⟨0, []⟩]) "a" ⟨0, []⟩).2.uid = 2 := by
  constructor
  · have h := (storeUID_actual.2.1 [] "a" ⟨0, []⟩ (by decide)).1
    rw [show addsTo (stripAt "a") [] = 0 from rfl] at h
    exact h
  · have h := (storeUID_actual.2.1 [StoreOp.add "a" ⟨0, []⟩] "a" ⟨0, []⟩
      (by decide)).1
    rw [show addsTo (stripAt "a") [StoreOp.add "a" ⟨0, []⟩] = 1 from by
      decide] at h
    exact h

end GoPec
